import Mathlib

/-!
Shallow embedding of the news-archive pipeline
(src/scripts/update_archive_only.py and src/scripts/build_data.py).

Strings are modelled as Lean `String` (sequences of Unicode code points,
matching Python `str`).  Python regular-expression operations are embedded
as explicit scanning functions over `List Char`; each one is documented
with the regex it implements.  Where Python relies on large Unicode tables
(the `\s` class, `str.lower`, `html.unescape`'s named-entity table) the
embedding covers the code points that can actually reach the pipeline
(ASCII, Hangul, the specific punctuation used by the scripts), as noted at
each definition.
-/

set_option maxRecDepth 4096

/-- Character class of Python's regex `\s` / `str.strip()` whitespace,
restricted to the code points handled by this embedding (ASCII whitespace,
NEL, NBSP, the Unicode line/paragraph separators and the ideographic
space). -/
def isPySpace (c : Char) : Bool :=
  c = ' ' || c = '\t' || c = '\n' || c = '\r' || c = '\u000B' || c = '\u000C' ||
  c = '\u0085' || c = '\u00A0' || c = '\u2028' || c = '\u2029' || c = '\u3000'

/-- Python `str.strip()` (no argument): trim `\s`-whitespace on both ends. -/
def pyStrip (s : String) : String :=
  (((s.toList.dropWhile isPySpace).reverse.dropWhile isPySpace).reverse).asString

/-- Python `str.lstrip()` (no argument). -/
def pyLStrip (s : String) : String :=
  (s.toList.dropWhile isPySpace).asString

/-- Python `str.rstrip()` (no argument). -/
def pyRStrip (s : String) : String :=
  ((s.toList.reverse.dropWhile isPySpace).reverse).asString

/-- Python `str.strip(chars)`: trim any of the given characters on both ends. -/
def stripCharsBoth (cs : List Char) (s : String) : String :=
  (((s.toList.dropWhile (cs.contains ·)).reverse.dropWhile (cs.contains ·)).reverse).asString

/-- Python `str.lstrip(chars)`. -/
def lstripChars (cs : List Char) (s : String) : String :=
  (s.toList.dropWhile (cs.contains ·)).asString

/-- Python `str.lower()`; ASCII case folding (the pipeline's strings are
ASCII plus Hangul, which `str.lower()` leaves unchanged). -/
def pyLower (s : String) : String :=
  (s.toList.map Char.toLower).asString

/-- Helper for `pySplitlines`: accumulate characters of the current line
(in reverse) and close a line at `\r\n`, `\r` or `\n`. -/
def pySplitlinesAux : List Char → List Char → List String
  | [], acc => if acc.isEmpty then [] else [acc.reverse.asString]
  | '\r' :: '\n' :: rest, acc => acc.reverse.asString :: pySplitlinesAux rest []
  | '\r' :: rest, acc => acc.reverse.asString :: pySplitlinesAux rest []
  | '\n' :: rest, acc => acc.reverse.asString :: pySplitlinesAux rest []
  | c :: rest, acc => pySplitlinesAux rest (c :: acc)

/-- Python `str.splitlines()` on the line terminators `\r\n`, `\r`, `\n`
(the only terminators the pipeline's strings contain): no trailing empty
piece after a final terminator, and the empty string yields no lines. -/
def pySplitlines (s : String) : List String :=
  pySplitlinesAux s.toList []

/-- Maximal runs of non-`\s` characters (helper for `collapseWs`). -/
def wordsAux : List Char → List Char → List (List Char)
  | [], acc => if acc.isEmpty then [] else [acc.reverse]
  | c :: rest, acc =>
    if isPySpace c then
      if acc.isEmpty then wordsAux rest [] else acc.reverse :: wordsAux rest []
    else wordsAux rest (c :: acc)

/-- Python `sep.join(ls)`. -/
def joinSep (sep : String) : List String → String
  | [] => ""
  | [l] => l
  | l :: rest => l ++ sep ++ joinSep sep rest

/-- Python `re.sub(r"\s+", " ", s).strip()`: collapse every whitespace run
to a single space and trim the ends; equivalently, join the whitespace
separated words of `s` with single spaces. -/
def collapseWs (s : String) : String :=
  joinSep " " ((wordsAux s.toList []).map List.asString)

/-- List-level "starts with" on characters. -/
def startsWithChars : List Char → List Char → Bool
  | [], _ => true
  | _ :: _, [] => false
  | p :: ps, c :: cs => p = c && startsWithChars ps cs

/-- List-level substring containment. -/
def containsChars (pat : List Char) : List Char → Bool
  | [] => startsWithChars pat []
  | c :: rest => startsWithChars pat (c :: rest) || containsChars pat rest

/-- Python `sub in s` substring test. -/
def containsSubstr (s sub : String) : Bool :=
  containsChars sub.toList s.toList

/-- ASCII-case-insensitive literal match: consume `pat` (given lowercase)
from the front of the input, returning the rest on success. -/
def matchCI : List Char → List Char → Option (List Char)
  | [], l => some l
  | _ :: _, [] => none
  | p :: ps, c :: cs => if Char.toLower c = p then matchCI ps cs else none

/-- Consume one-or-more `\s` characters (regex `\s+`), returning the rest. -/
def dropSpaces1 : List Char → Option (List Char)
  | [] => none
  | c :: rest => if isPySpace c then some (rest.dropWhile isPySpace) else none

/-- Named entities recognised by the embedding of `html.unescape` (the
common subset relevant to news text; single replacement character each). -/
def namedEntity : List Char → Option Char
  | ['a','m','p'] => some '&'
  | ['l','t'] => some '<'
  | ['g','t'] => some '>'
  | ['q','u','o','t'] => some '"'
  | ['a','p','o','s'] => some '\''
  | ['n','b','s','p'] => some '\u00A0'
  | ['h','e','l','l','i','p'] => some '…'
  | ['m','d','a','s','h'] => some '—'
  | ['n','d','a','s','h'] => some '–'
  | ['l','s','q','u','o'] => some '‘'
  | ['r','s','q','u','o'] => some '’'
  | ['l','d','q','u','o'] => some '“'
  | ['r','d','q','u','o'] => some '”'
  | ['m','i','d','d','o','t'] => some '·'
  | ['c','o','p','y'] => some '©'
  | ['r','e','g'] => some '®'
  | ['t','r','a','d','e'] => some '™'
  | ['d','e','g'] => some '°'
  | ['t','i','m','e','s'] => some '×'
  | ['b','u','l','l'] => some '•'
  | _ => none

/-- Value of a hexadecimal digit, if any (codes 48-57 are `0`-`9`,
97-102 are `a`-`f`, 65-70 are `A`-`F`). -/
def hexDigitVal (c : Char) : Option Nat :=
  let n := c.toNat
  if 48 ≤ n && n ≤ 57 then some (n - 48)
  else if 97 ≤ n && n ≤ 102 then some (n - 87)
  else if 65 ≤ n && n ≤ 70 then some (n - 55)
  else none

/-- Fold a digit list into a number with the given base and digit reader. -/
def digitsToNat (base : Nat) (dv : Char → Option Nat) (l : List Char) : Nat :=
  l.foldl (fun n c => n * base + ((dv c).getD 0)) 0

/-- Parse one character reference right after a `&`, returning the
replacement character and the remaining input (after the closing `;`). -/
def parseEntity (l : List Char) : Option (Char × List Char) :=
  match l with
  | '#' :: rest =>
    match rest with
    | 'x' :: rest2 =>
      let ds := rest2.takeWhile (fun c => (hexDigitVal c).isSome)
      if ds.isEmpty then none
      else match rest2.drop ds.length with
        | ';' :: rest3 =>
          let n := digitsToNat 16 hexDigitVal ds
          some (if n.isValidChar then Char.ofNat n else '�', rest3)
        | _ => none
    | _ =>
      let ds := rest.takeWhile Char.isDigit
      if ds.isEmpty then none
      else match rest.drop ds.length with
        | ';' :: rest3 =>
          let n := digitsToNat 10 (fun c => some (c.toNat - '0'.toNat)) ds
          some (if n.isValidChar then Char.ofNat n else '�', rest3)
        | _ => none
  | _ =>
    let name := l.takeWhile Char.isAlpha
    if name.isEmpty then none
    else match l.drop name.length with
      | ';' :: rest3 =>
        match namedEntity name with
        | some c => some (c, rest3)
        | none => none
      | _ => none

/-- Fuelled scan for `html.unescape`: replace recognised `&...;` character
references, leaving everything else (including unrecognised references)
untouched. -/
def htmlUnescapeAux : Nat → List Char → List Char
  | 0, l => l
  | _ + 1, [] => []
  | fuel + 1, '&' :: rest =>
    match parseEntity rest with
    | some (c, rest') => c :: htmlUnescapeAux fuel rest'
    | none => '&' :: htmlUnescapeAux fuel rest
  | fuel + 1, c :: rest => c :: htmlUnescapeAux fuel rest

/-- Embedding of `html.unescape` over the entity table above. -/
def htmlUnescape (s : String) : String :=
  (htmlUnescapeAux (s.toList.length + 1) s.toList).asString

/-- Does the input start with `http://` or `https://` followed by at least
one non-whitespace character (i.e. does regex `https?://\S+` match here)? -/
def urlAt (l : List Char) : Bool :=
  match matchCI "http".toList l with
  | none => false
  | some r1 =>
    let r2 := match r1 with
      | 's' :: r => some r
      | r => some r
    match r2 with
    | some r =>
      match r with
      | ':' :: '/' :: '/' :: c :: _ => !isPySpace c
      | _ => false
    | none => false

/-- Drop the `https?://\S+` match starting at the head of the input. -/
def dropUrl (l : List Char) : List Char :=
  l.dropWhile (fun c => !isPySpace c)

/-- Fuelled scan for `re.sub(r"https?://\S+", "", s)`.
`urlAt` is case-insensitive on the scheme letters; the Python pattern is
case-sensitive, but the pipeline only ever sees lowercase schemes, and the
match condition is checked on the literal characters below. -/
def removeUrlsAux : Nat → List Char → List Char
  | 0, l => l
  | _ + 1, [] => []
  | fuel + 1, c :: rest =>
    if startsWithChars "http://".toList (c :: rest) ∨
       startsWithChars "https://".toList (c :: rest) then
      if urlAt (c :: rest) then removeUrlsAux fuel (dropUrl (c :: rest))
      else c :: removeUrlsAux fuel rest
    else c :: removeUrlsAux fuel rest

/-- Embedding of `re.sub(r"https?://\S+", "", s)`. -/
def removeUrls (s : String) : String :=
  (removeUrlsAux (s.toList.length + 1) s.toList).asString

/-- Fuelled scan for `re.sub(r"\+\d+\s*chars", "", s, flags=IGNORECASE)`:
a literal `+`, one-or-more digits, optional whitespace, then `chars`
case-insensitively. -/
def removePlusCharsAux : Nat → List Char → List Char
  | 0, l => l
  | _ + 1, [] => []
  | fuel + 1, c :: rest =>
    if c = '+' then
      let ds := rest.takeWhile Char.isDigit
      if ds.isEmpty then '+' :: removePlusCharsAux fuel rest
      else
        let afterDigits := rest.drop ds.length
        let afterSpaces := afterDigits.dropWhile isPySpace
        match matchCI "chars".toList afterSpaces with
        | some rest' => removePlusCharsAux fuel rest'
        | none => '+' :: removePlusCharsAux fuel rest
    else c :: removePlusCharsAux fuel rest

/-- Embedding of `re.sub(r"\+\d+\s*chars", "", s, flags=re.IGNORECASE)`. -/
def removePlusChars (s : String) : String :=
  (removePlusCharsAux (s.toList.length + 1) s.toList).asString

/-- Python `s.encode("latin-1", errors="ignore")`: keep code points below
256 as bytes, silently dropping the rest. -/
def encodeLatin1Ignore (s : String) : List Nat :=
  s.toList.filterMap (fun c => if c.toNat < 256 then some c.toNat else none)

/-- Is a byte a UTF-8 continuation byte? -/
def isCont (b : Nat) : Bool := 128 ≤ b && b ≤ 191

/-- Fuelled UTF-8 decoder with `errors="ignore"` semantics: decode valid
sequences (excluding overlong forms and surrogates), skip invalid bytes. -/
def decodeUtf8Aux : Nat → List Nat → List Char
  | 0, _ => []
  | _ + 1, [] => []
  | fuel + 1, b :: rest =>
    if b < 128 then Char.ofNat b :: decodeUtf8Aux fuel rest
    else if 194 ≤ b && b ≤ 223 then
      match rest with
      | b2 :: rest2 =>
        if isCont b2 then Char.ofNat ((b - 192) * 64 + (b2 - 128)) :: decodeUtf8Aux fuel rest2
        else decodeUtf8Aux fuel rest
      | [] => []
    else if 224 ≤ b && b ≤ 239 then
      match rest with
      | b2 :: b3 :: rest3 =>
        let okB2 :=
          if b = 224 then 160 ≤ b2 && b2 ≤ 191
          else if b = 237 then 128 ≤ b2 && b2 ≤ 159
          else isCont b2
        if okB2 && isCont b3 then
          Char.ofNat ((b - 224) * 4096 + (b2 - 128) * 64 + (b3 - 128)) :: decodeUtf8Aux fuel rest3
        else decodeUtf8Aux fuel rest
      | _ => []
    else if 240 ≤ b && b ≤ 244 then
      match rest with
      | b2 :: b3 :: b4 :: rest4 =>
        let okB2 :=
          if b = 240 then 144 ≤ b2 && b2 ≤ 191
          else if b = 244 then 128 ≤ b2 && b2 ≤ 143
          else isCont b2
        if okB2 && isCont b3 && isCont b4 then
          Char.ofNat ((b - 240) * 262144 + (b2 - 128) * 4096 + (b3 - 128) * 64 + (b4 - 128)) ::
            decodeUtf8Aux fuel rest4
        else decodeUtf8Aux fuel rest
      | _ => []
    else decodeUtf8Aux fuel rest

/-- Python `bytes.decode("utf-8", errors="ignore")` (invalid bytes are
dropped one at a time, a faithful-enough rendering of the error handler
for the marker repair below). -/
def decodeUtf8Ignore (bs : List Nat) : String :=
  (decodeUtf8Aux (bs.length + 1) bs).asString

/-- The module-level `MOJIBAKE_MARKERS` tuple (shared by both scripts). -/
def MOJIBAKE_MARKERS : List String :=
  ["Ã", "Â", "â€™", "â€œ", "â€", "ï¿½", "�"]

/-- Python `any(m in s for m in MOJIBAKE_MARKERS)`. -/
def hasMojibake (s : String) : Bool :=
  MOJIBAKE_MARKERS.any (fun m => containsSubstr s m)

/-- The latin-1/UTF-8 round trip both scripts use to repair mojibake
(`s.encode("latin-1", errors="ignore").decode("utf-8", errors="ignore")`;
with `errors="ignore"` on both sides the round trip never raises). -/
def mojibakeRoundTrip (s : String) : String :=
  decodeUtf8Ignore (encodeLatin1Ignore s)

/-- Python regex word character (`\w` for `str` patterns), restricted to
the scripts here: ASCII alphanumerics, underscore, Hangul syllables and
Hangul jamo. -/
def isWordChar (c : Char) : Bool :=
  c.isAlphanum || c = '_' ||
  (0xAC00 ≤ c.toNat && c.toNat ≤ 0xD7A3) || (0x1100 ≤ c.toNat && c.toNat ≤ 0x11FF) ||
  (0x3130 ≤ c.toNat && c.toNat ≤ 0x318F)

/-- A `\b` word boundary holds before the head of the suffix when the
head is a word character and the previous character (if any) is not. -/
def wordBoundaryBefore (prev : Option Char) : Bool :=
  match prev with
  | none => true
  | some p => !isWordChar p

/-- Matcher for `(?is)Related\s+[A-Za-z].*$`: `related` case-insensitively,
one-or-more whitespace, then an ASCII letter (no word boundary in the
original pattern). -/
def relatedAt (_prev : Option Char) (l : List Char) : Bool :=
  match matchCI "related".toList l with
  | none => false
  | some r1 =>
    match dropSpaces1 r1 with
    | none => false
    | some r2 =>
      match r2 with
      | c :: _ => c.isAlpha
      | [] => false

/-- Matcher for `(?is)\bFacebook\s+Twitter\s+LinkedIn.*$`. -/
def facebookAt (prev : Option Char) (l : List Char) : Bool :=
  wordBoundaryBefore prev &&
  (match matchCI "facebook".toList l with
   | none => false
   | some r1 =>
     match dropSpaces1 r1 with
     | none => false
     | some r2 =>
       match matchCI "twitter".toList r2 with
       | none => false
       | some r3 =>
         match dropSpaces1 r3 with
         | none => false
         | some r4 => (matchCI "linkedin".toList r4).isSome)

/-- Matcher for `(?is)\bLike this:\s*Like Loading\.\.\.` (the literal
spaces inside the words match exactly one space; `\s*` after the colon). -/
def likeThisAt (prev : Option Char) (l : List Char) : Bool :=
  wordBoundaryBefore prev &&
  (match matchCI "like this:".toList l with
   | none => false
   | some r1 => (matchCI "like loading...".toList (r1.dropWhile isPySpace)).isSome)

/-- Matcher for `(?is)관련 기사 더 보기.*$`. -/
def krRelatedAt (_prev : Option Char) (l : List Char) : Bool :=
  (matchCI "관련 기사 더 보기".toList l).isSome

/-- Matcher for `(?is)Loading Comments\.\.\..*$`. -/
def loadingCommentsAt (_prev : Option Char) (l : List Char) : Bool :=
  (matchCI "loading comments...".toList l).isSome

/-- Matcher for `(?is)You must be logged in to post a comment\..*$`. -/
def loggedInAt (_prev : Option Char) (l : List Char) : Bool :=
  (matchCI "you must be logged in to post a comment.".toList l).isSome

/-- Matcher for `(?is)%d bloggers like this:.*$`. -/
def bloggersAt (_prev : Option Char) (l : List Char) : Bool :=
  (matchCI "%d bloggers like this:".toList l).isSome

/-- Matcher for `(?is)←.*$`. -/
def arrowLeftAt (_prev : Option Char) (l : List Char) : Bool :=
  match l with
  | '←' :: _ => true
  | _ => false

/-- Matcher for `(?is)→.*$`. -/
def arrowRightAt (_prev : Option Char) (l : List Char) : Bool :=
  match l with
  | '→' :: _ => true
  | _ => false

/-- Truncate the input at the first position where the matcher fires
(a `re.sub(pat + ".*$", "", s)` with DOTALL deletes from the leftmost
match to the end of the string). -/
def truncScan (pred : Option Char → List Char → Bool) : Option Char → List Char → List Char
  | _, [] => []
  | prev, c :: rest => if pred prev (c :: rest) then [] else c :: truncScan pred (some c) rest

/-- One `s = re.sub(pat, "", s).strip()` step of the boilerplate list. -/
def truncPat (pred : Option Char → List Char → Bool) (s : String) : String :=
  pyStrip ((truncScan pred none s.toList).asString)

/-- The shared ordered list of trailing-boilerplate removals: the nine
`re.sub(...).strip()` lines of `clean_text` (update_archive_only.py, lines
44-52), which are also exactly `_strip_feed_noise` of build_data.py. -/
def stripFeedNoise (s : String) : String :=
  truncPat arrowRightAt
    (truncPat arrowLeftAt
      (truncPat bloggersAt
        (truncPat loggedInAt
          (truncPat loadingCommentsAt
            (truncPat krRelatedAt
              (truncPat likeThisAt
                (truncPat facebookAt
                  (truncPat relatedAt s))))))))

/-- The first four successive reassignments of `s` in `clean_text`
(update_archive_only.py, lines 35-38): HTML-entity decode, whitespace
collapse + strip, URL removal, `+N chars` removal. -/
def cleanStage4 (s : String) : String :=
  removePlusChars (removeUrls (collapseWs (htmlUnescape s)))

/-- The marker-guarded mojibake repair step of `clean_text` (lines
39-43; `errors="ignore"` on both sides makes the `try` body total, so
the `except` branch is dead code). -/
def cleanStage5 (s : String) : String :=
  if hasMojibake (cleanStage4 s) then mojibakeRoundTrip (cleanStage4 s) else cleanStage4 s

/-- Embedding of `clean_text` (update_archive_only.py, lines 32-53):
the staged pipeline above, then the nine boilerplate truncations, and a
final `strip(" -")`. -/
def clean_text (s : String) : String :=
  if s = "" then ""
  else stripCharsBoth [' ', '-'] (stripFeedNoise (cleanStage5 s))

/-- Normalise `\r\n` and `\r` to `\n` (the two `str.replace` calls of
`normalize_inner_text`). -/
def normNewlines : List Char → List Char
  | [] => []
  | '\r' :: '\n' :: rest => '\n' :: normNewlines rest
  | '\r' :: rest => '\n' :: normNewlines rest
  | c :: rest => c :: normNewlines rest

/-- The horizontal-whitespace class `[ \t\f\v]` of `normalize_inner_text`. -/
def isHorizSpace (c : Char) : Bool :=
  c = ' ' || c = '\t' || c = '\u000C' || c = '\u000B'

/-- `re.sub(r"[ \t\f\v]+", " ", s)`: collapse horizontal whitespace runs
to a single space (newlines untouched). -/
def collapseHorizAux : Bool → List Char → List Char
  | _, [] => []
  | inRun, c :: rest =>
    if isHorizSpace c then
      if inRun then collapseHorizAux true rest else ' ' :: collapseHorizAux true rest
    else c :: collapseHorizAux false rest

/-- Embedding of `normalize_inner_text` (update_archive_only.py, lines
56-63): entity decode, newline normalisation, NBSP to space, horizontal
whitespace collapse, then per-line strip dropping empty lines. -/
def normalize_inner_text (s : String) : String :=
  if s = "" then ""
  else
    let l1 := (htmlUnescape s).toList
    let l2 := (normNewlines l1).map (fun c => if c = '\u00A0' then ' ' else c)
    let l3 := collapseHorizAux false l2
    let lines := ((pySplitlines l3.asString).map pyStrip).filter (· ≠ "")
    joinSep "\n" lines

/-- Regex search: try the position matcher at every index of the string,
tracking the previous character for word-boundary tests. -/
def reSearchAux (pred : Option Char → List Char → Bool) : Option Char → List Char → Bool
  | _, [] => false
  | prev, c :: rest => pred prev (c :: rest) || reSearchAux pred (some c) rest

/-- `re.search` of a position matcher over a string. -/
def reSearch (pred : Option Char → List Char → Bool) (s : String) : Bool :=
  reSearchAux pred none s.toList

/-- Word-bounded case-insensitive literal (one alternative of a
`\b(w1|w2|...)\b` pattern); the literal's first and last characters are
word characters for every alternative used below, so the boundaries reduce
to the neighbours not being word characters. -/
def wordAt (w : String) (prev : Option Char) (l : List Char) : Bool :=
  wordBoundaryBefore prev &&
  (match matchCI w.toList l with
   | some r =>
     match r with
     | [] => true
     | c :: _ => !isWordChar c
   | none => false)

/-- Search for any word of a `\b(w1|...|wn)\b` alternation. -/
def altWordSearch (ws : List String) (line : String) : Bool :=
  ws.any (fun w => reSearch (wordAt w) line)

/-- Plain (unbounded) case-insensitive substring search. -/
def substrCISearch (w : String) (line : String) : Bool :=
  reSearch (fun _ l => (matchCI w.toList l).isSome) line

/-- Matcher for `(?im)^\s*(기자|리포터|Reporter|By)\s*[:：]`, anchored at the
start (the lines this is applied to are `clean_text` outputs and contain
no newline, so the multiline anchor is just the string start). -/
def bylineSearch (line : String) : Bool :=
  let r := line.toList.dropWhile isPySpace
  ["기자", "리포터", "reporter", "by"].any (fun kw =>
    match matchCI kw.toList r with
    | none => false
    | some r2 =>
      match r2.dropWhile isPySpace with
      | ':' :: _ => true
      | '：' :: _ => true
      | _ => false)

/-- Character class `[\w\.-]` of the e-mail pattern. -/
def isEmailChar (c : Char) : Bool :=
  isWordChar c || c = '.' || c = '-'

/-- A `\b` between `prev` and the first matched character `c`: exactly one
side is a word character. -/
def boundaryBetween (prev : Option Char) (c : Char) : Bool :=
  if isWordChar c then wordBoundaryBefore prev
  else match prev with
    | some p => isWordChar p
    | none => false

/-- Scan for a `.` followed by a word character; the flag records whether
at least one character precedes the dot (the `[\w\.-]+` before `\.` must
be nonempty). -/
def hasDotWordAux : Bool → List Char → Bool
  | _, [] => false
  | hasPrev, '.' :: rest =>
    (hasPrev && (match rest with
      | c :: _ => isWordChar c
      | [] => false)) || hasDotWordAux true rest
  | _, _ :: rest => hasDotWordAux true rest

/-- Does the tail `[\w\.-]+` part after the `@` contain a `.` followed by
a word character, with a nonempty run before the dot (i.e. can
`[\w\.-]+\.\w+\b` match it)? -/
def hasDotWord (v : List Char) : Bool :=
  hasDotWordAux false v

/-- Matcher for `(?im)\b[\w\.-]+@[\w\.-]+\.\w+\b` at a position. -/
def emailAt (prev : Option Char) (l : List Char) : Bool :=
  match l with
  | [] => false
  | c :: _ =>
    let u := l.takeWhile isEmailChar
    !u.isEmpty && boundaryBetween prev c &&
    (match l.drop u.length with
     | '@' :: r2 =>
       let v := r2.takeWhile isEmailChar
       !v.isEmpty && hasDotWord v
     | _ => false)

/-- Take exactly `n` digits from the front, if possible. -/
def takeNDigits (n : Nat) (l : List Char) : Option (List Char) :=
  if (l.take n).length = n && (l.take n).all Char.isDigit then some (l.drop n) else none

/-- The separator class `[-.\s]` of the phone pattern. -/
def isSepChar (c : Char) : Bool :=
  c = '-' || c = '.' || isPySpace c

/-- The optional-separator step `[-.\s]?`: both possible rests. -/
def optSep (l : List Char) : List (List Char) :=
  match l with
  | c :: rest => if isSepChar c then [l, rest] else [l]
  | [] => [l]

/-- Matcher for `(?im)\b\d{2,4}[-.\s]?\d{3,4}[-.\s]?\d{4}\b` at a
position (existence over the bounded quantifier choices). -/
def phoneAt (prev : Option Char) (l : List Char) : Bool :=
  (match l with
   | c :: _ => c.isDigit && wordBoundaryBefore prev
   | [] => false) &&
  ([2, 3, 4].any fun d1 =>
    match takeNDigits d1 l with
    | none => false
    | some r1 =>
      (optSep r1).any fun r2 =>
        [3, 4].any fun d2 =>
          match takeNDigits d2 r2 with
          | none => false
          | some r3 =>
            (optSep r3).any fun r4 =>
              match takeNDigits 4 r4 with
              | none => false
              | some r5 =>
                match r5 with
                | [] => true
                | c :: _ => !isWordChar c)

/-- The Japanese-script test `JP_RE` (`[぀-ヿｦ-ﾟ]`). -/
def jpSearch (line : String) : Bool :=
  line.toList.any (fun c =>
    (0x3040 ≤ c.toNat && c.toNat ≤ 0x30FF) || (0xFF66 ≤ c.toNat && c.toNat ≤ 0xFF9F))

/-- `any(rx.search(line) for rx in NOISE_PATTERNS)` over the seven
compiled noise patterns (update_archive_only.py, lines 399-407). -/
def noiseAny (line : String) : Bool :=
  altWordSearch ["login", "sign in", "sign up", "newsletter", "subscribe", "cookie",
    "privacy", "terms", "copyright"] line ||
  altWordSearch ["all rights reserved", "advertisement", "sponsored"] line ||
  altWordSearch ["facebook", "twitter", "instagram", "linkedin", "youtube",
    "kakaotalk", "share"] line ||
  bylineSearch line ||
  reSearch emailAt line ||
  reSearch phoneAt line ||
  altWordSearch ["댓글", "공유", "좋아요", "기사원문", "원문보기", "관련 기사", "관련기사"] line

/-- The per-line keep test of the first loop of
`filter_article_paragraphs`: clean, then drop empty, Japanese-script,
short (fewer than 10 characters) and noisy lines. -/
def strictKeepLine (p : String) : Option String :=
  let line := clean_text p
  if line = "" then none
  else if jpSearch line then none
  else if line.length < 10 then none
  else if noiseAny line then none
  else some line

/-- First pass of `filter_article_paragraphs` (the `kept` list before the
fallback). -/
def strictKept (ps : List String) : List String :=
  ps.filterMap strictKeepLine

/-- The fallback list `[clean_text(p) for p in paragraphs if clean_text(p)]`. -/
def cleanedNonempty (ps : List String) : List String :=
  ps.filterMap (fun p =>
    let c := clean_text p
    if c = "" then none else some c)

/-- Embedding of `filter_article_paragraphs` (update_archive_only.py,
lines 411-426). -/
def filter_article_paragraphs (ps : List String) : List String :=
  let kept := strictKept ps
  if kept.isEmpty then cleanedNonempty ps else kept

/-- Embedding of `enforce_line_limit` (lines 116-118). -/
def enforce_line_limit (text : String) (limit : Nat) : String :=
  joinSep "\n" ((((pySplitlines text).map pyStrip).filter (· ≠ "")).take limit)

/-- Embedding of `bulletize_lines` (lines 139-146). -/
def bulletize_lines (lines : List String) : List String :=
  lines.filterMap (fun ln =>
    let c := clean_text ln
    if c = "" then none else some ("- " ++ c))

/-- The sentence-final characters `".!?。다"` used when appending terminal
punctuation. -/
def SENT_END : List Char := ['.', '!', '?', '。', '다']

/-- Append a period unless the sentence already ends in `".!?。다"`. -/
def addPunct (t : String) : String :=
  match t.toList.getLast? with
  | some c => if SENT_END.contains c then t else t ++ "."
  | none => t ++ "."

/-- Fuelled splitter for
`re.split(r"(?<=[.!?。])\s+|(?<=다\.)\s+|(?<=요\.)\s+", s)`: split at each
maximal whitespace run whose preceding character is sentence-terminal
(the second and third lookbehinds both end in `.` and are subsumed by the
first). -/
def splitSentencesAux : Nat → Option Char → List Char → List Char → List String
  | 0, _, l, acc => [(acc.reverse ++ l).asString]
  | _ + 1, _, [], acc => [acc.reverse.asString]
  | fuel + 1, prev, c :: rest, acc =>
    if isPySpace c && (match prev with
        | some p => ['.', '!', '?', '。'].contains p
        | none => false) then
      acc.reverse.asString :: splitSentencesAux fuel (some ' ') ((c :: rest).dropWhile isPySpace) []
    else splitSentencesAux fuel (some c) rest (c :: acc)

/-- The locale-aware sentence splitter shared by `local_summary`,
`_fallback_ai_summary` and `make_bullet_summary`. -/
def splitSentences (s : String) : List String :=
  splitSentencesAux (s.toList.length + 1) none s.toList []

/-- `" ".join(part for part in parts if part)`. -/
def joinNonempty (parts : List String) : String :=
  joinSep " " (parts.filter (· ≠ ""))

/-- The bullet-building loop of `local_summary` (`bullets` with the
`len(bullets) >= MAX_SUMMARY_LINES` break; `n` is the current length). -/
def localBullets (L : Nat) : List String → Nat → List String
  | [], _ => []
  | s :: rest, n =>
    if L ≤ n then []
    else
      let sentence := clean_text s
      if sentence = "" then localBullets L rest n
      else ("- " ++ addPunct sentence) :: localBullets L rest (n + 1)

/-- Embedding of `local_summary` (lines 149-168); `L` is the module
configuration constant `MAX_SUMMARY_LINES`, passed explicitly. -/
def local_summary (L : Nat) (title description content : String) : String :=
  let merged := joinNonempty [clean_text title, clean_text description, clean_text content]
  if merged = "" then "요약할 본문이 부족합니다."
  else
    let sentences0 := (splitSentences merged).filterMap (fun s =>
      let t := stripCharsBoth [' ', '-'] s
      if s = "" ∨ t = "" then none else some t)
    let sentences := if sentences0.isEmpty then [merged] else sentences0
    enforce_line_limit (joinSep "\n" (localBullets L sentences 0)) L

/-- Embedding of `normalize_bullet_output` (lines 171-188). -/
def normalize_bullet_output (L : Nat) (text : String) : String :=
  let lines := (pySplitlines text).filterMap (fun ln =>
    if pyStrip ln = "" then none else some (pyRStrip ln))
  if lines.isEmpty then ""
  else
    let lines2 :=
      if !(lines.any (fun ln => (pyLStrip ln).startsWith "-")) then bulletize_lines lines
      else lines.filterMap (fun ln =>
        let stripped := clean_text (pyStrip (lstripChars ['-', ' '] ln))
        if stripped = "" then none else some ("- " ++ addPunct stripped))
    enforce_line_limit (joinSep "\n" lines2) L

/-- The character class `[0-9a-zA-Z가-힣]` shared by `_context_terms` and
`_has_readable_content`. -/
def isTermChar (c : Char) : Bool :=
  c.isAlphanum || (0xAC00 ≤ c.toNat && c.toNat ≤ 0xD7A3)

/-- `re.findall(r"[0-9a-zA-Z가-힣]{2,}", s)`: the maximal runs of term
characters of length at least two. -/
def termRunsAux : List Char → List Char → List String
  | [], acc => if acc.length ≥ 2 then [acc.reverse.asString] else []
  | c :: rest, acc =>
    if isTermChar c then termRunsAux rest (c :: acc)
    else if acc.length ≥ 2 then acc.reverse.asString :: termRunsAux rest []
    else termRunsAux rest []

/-- All term runs of a string. -/
def termRuns (s : String) : List String :=
  termRunsAux s.toList []

/-- The stop-word set of `_context_terms`. -/
def STOP_TERMS : List String :=
  ["속보", "단독", "기자", "뉴스", "관련", "업데이트", "today", "news", "the", "and"]

/-- Embedding of `_context_terms` (lines 66-81); the Python set is
modelled as a list used only through membership. -/
def context_terms (title description : String) : List String :=
  (termRuns (pyLower (title ++ " " ++ description))).filter (fun t => !STOP_TERMS.contains t)

/-- The `junk_hint` regex of `minimal_context_filter`: plain
case-insensitive substrings in the first group, word-bounded Korean terms
in the second. -/
def junkHint (line : String) : Bool :=
  ["login", "sign in", "sign up", "newsletter", "subscribe", "cookie", "privacy",
    "terms", "menu", "home", "copyright", "all rights reserved"].any
      (fun w => substrCISearch w line) ||
  ["댓글", "공유", "좋아요", "본문보기", "기사원문"].any (fun w => reSearch (wordAt w) line)

/-- `re.findall(r"[0-9a-zA-Z가-힣]{2,}", line.lower())` for the per-line
term set of `minimal_context_filter`. -/
def lineTerms (line : String) : List String :=
  termRuns (pyLower line)

/-- The per-line keep test of `minimal_context_filter`'s loop. -/
def mcfKeepLine (terms : List String) (ln : String) : Option String :=
  let line := clean_text ln
  if line = "" then none
  else if line.length ≤ 2 then none
  else if !junkHint line then some line
  else if !terms.isEmpty && (lineTerms line).any (fun t => terms.contains t) then some line
  else none

/-- Embedding of `minimal_context_filter` (lines 84-113). -/
def minimal_context_filter (title description body_text : String) : String :=
  if body_text = "" then ""
  else
    let source := normalize_inner_text body_text
    if source = "" then ""
    else
      let terms := context_terms title description
      let kept := (pySplitlines source).filterMap (mcfKeepLine terms)
      let kept2 :=
        if kept.isEmpty then
          (pySplitlines source).filterMap (fun ln =>
            let c := clean_text ln
            if c = "" then none else some c)
        else kept
      joinSep "\n" kept2

/-- The order-preserving lowercase dedup loop of `format_crawled_body`. -/
def dedupByLower : List String → List String → List String
  | [], _ => []
  | ln :: rest, seen =>
    if seen.contains (pyLower ln) then dedupByLower rest seen
    else ln :: dedupByLower rest (pyLower ln :: seen)

/-- Embedding of `format_crawled_body` (lines 265-278). -/
def format_crawled_body (title description body_text : String) : String :=
  let filtered := minimal_context_filter title description body_text
  if filtered = "" then ""
  else
    let lines := (pySplitlines filtered).filterMap (fun ln =>
      let c := clean_text ln
      if c = "" then none else some c)
    joinSep "\n" ((dedupByLower lines []).map (fun ln => "- " ++ ln))

/-- Embedding of `_has_readable_content` (lines 281-284): nonempty and
containing a character of `[A-Za-z0-9가-힣]`. -/
def has_readable_content (text : String) : Bool :=
  if text = "" then false else text.toList.any isTermChar

/-- The fixed "could not be summarized" sentinel. -/
def AI_SENTINEL : String := "요약할 수 없는 내용입니다"

/-- Embedding of `_fallback_ai_summary` (lines 287-302). -/
def fallback_ai_summary (title text : String) : String :=
  let clean := clean_text text
  if !has_readable_content clean then AI_SENTINEL
  else
    let sents := (splitSentences clean).filterMap (fun s =>
      let c := clean_text s
      if c = "" then none else some c)
    let key := sents.headD clean
    let more := (sents.get? 1).getD key
    let t := if clean_text title ≠ "" then ((clean_text title).toList.take 5).asString else "기사요약"
    "제목: " ++ t ++ "\n핵심 요약: " ++ key ++ "\n- 주요 포인트: " ++ key ++
      "\n- 주요 포인트: " ++ more ++ "\n- 주요 포인트: " ++ ((sents.get? 2).getD clean)

/-- Embedding of `_normalize_ai_summary_text` (lines 305-309). -/
def normalize_ai_summary_text (text : String) : String :=
  if text = "" then ""
  else
    joinSep "\n" ((pySplitlines text).filterMap (fun ln =>
      let c := clean_text ln
      if c = "" then none else some c))

/-- Embedding of `build_ai_summary` (lines 312-352).  The external
reasoning call is the one I/O action of the function; it is modelled by
the oracle argument `llm`: `some out` is a successful response with body
`out`, `none` covers both "no API key configured" and "the request
raised", which land in the same local-fallback code path. -/
def build_ai_summary (llm : Option String) (title description body_text : String) : String :=
  let source := minimal_context_filter title description body_text
  if !has_readable_content source then AI_SENTINEL
  else
    match llm with
    | some out =>
      let summary := normalize_ai_summary_text out
      if has_readable_content summary then summary else AI_SENTINEL
    | none =>
      let fallback := fallback_ai_summary title source
      if has_readable_content fallback then fallback else AI_SENTINEL

/-- The local-only path of `summarize` (lines 246-262) when no reasoning
service is configured: filter, then `local_summary` on the filtered source
(or on the raw inputs when filtering yields nothing). -/
def summarize_local (L : Nat) (title description content : String) : String :=
  let filtered := minimal_context_filter title description content
  if filtered = "" then local_summary L title description content
  else local_summary L title description filtered

/-- Reduce modulo `2^32` (32-bit machine word). -/
def w32 (n : Nat) : Nat := n % 4294967296

/-- Rotate a 32-bit word left by `k` bits. -/
def rotl (k n : Nat) : Nat :=
  (n % 2 ^ (32 - k)) * 2 ^ k + n / 2 ^ (32 - k)

/-- UTF-8 encode one character (Python `str.encode("utf-8")`;
`errors="ignore"` only affects lone surrogates, which Lean `Char`
excludes). -/
def utf8EncodeChar (c : Char) : List Nat :=
  let n := c.toNat
  if n < 0x80 then [n]
  else if n < 0x800 then [0xC0 + n / 64, 0x80 + n % 64]
  else if n < 0x10000 then [0xE0 + n / 4096, 0x80 + n / 64 % 64, 0x80 + n % 64]
  else [0xF0 + n / 262144, 0x80 + n / 4096 % 64, 0x80 + n / 64 % 64, 0x80 + n % 64]

/-- UTF-8 encode a string to a byte list. -/
def utf8Encode (s : String) : List Nat :=
  s.toList.flatMap utf8EncodeChar

/-- Split a byte list into chunks of `k` bytes (helper; the accumulator
holds the current chunk in reverse). -/
def chunkListAux (k : Nat) : List Nat → List Nat → List (List Nat)
  | [], acc => if acc.isEmpty then [] else [acc.reverse]
  | b :: rest, acc =>
    if acc.length + 1 = k then (b :: acc).reverse :: chunkListAux k rest []
    else chunkListAux k rest (b :: acc)

/-- Split a byte list into chunks of `k` bytes. -/
def chunkList (k : Nat) (l : List Nat) : List (List Nat) :=
  chunkListAux k l []

/-- Big-endian bytes of a number, `k` bytes wide. -/
def natToBytesBE (k n : Nat) : List Nat :=
  (List.range k).map (fun i => n / 2 ^ (8 * (k - 1 - i)) % 256)

/-- One 32-bit big-endian word from four bytes. -/
def word4 : List Nat → Nat
  | [b0, b1, b2, b3] => b0 * 16777216 + b1 * 65536 + b2 * 256 + b3
  | _ => 0

/-- SHA-1 message padding: `0x80`, zeros to 56 mod 64, then the bit
length as eight big-endian bytes. -/
def sha1Pad (msg : List Nat) : List Nat :=
  let l := msg.length
  let r := (l + 1) % 64
  let k := (56 + 64 - r) % 64
  msg ++ [0x80] ++ List.replicate k 0 ++ natToBytesBE 8 (l * 8)

/-- Extend the 16 schedule words to 80: sixty-four steps of
`w[i] = rotl1 (w[i-3] xor w[i-8] xor w[i-14] xor w[i-16])`; `acc` holds
the words produced so far in reverse. -/
def sha1Extend : Nat → List Nat → List Nat
  | 0, acc => acc.reverse
  | steps + 1, acc =>
    let w := rotl 1 ((((acc.getD 2 0).xor (acc.getD 7 0)).xor (acc.getD 13 0)).xor (acc.getD 15 0))
    sha1Extend steps (w :: acc)

/-- 32-bit bitwise complement of a word below `2^32`. -/
def not32 (n : Nat) : Nat := 4294967295 - n

/-- The SHA-1 round function and constant for round `t`. -/
def sha1FK (t b c d : Nat) : Nat × Nat :=
  if t < 20 then ((b.land c).lor ((not32 b).land d), 0x5A827999)
  else if t < 40 then ((b.xor c).xor d, 0x6ED9EBA1)
  else if t < 60 then (((b.land c).lor (b.land d)).lor (c.land d), 0x8F1BBCDC)
  else ((b.xor c).xor d, 0xCA62C1D6)

/-- One SHA-1 round, updating the five-word state. -/
def sha1Round (st : Nat × Nat × Nat × Nat × Nat × Nat) (w : Nat) :
    Nat × Nat × Nat × Nat × Nat × Nat :=
  match st with
  | (t, a, b, c, d, e) =>
    let fk := sha1FK t b c d
    let temp := w32 (rotl 5 a + fk.1 + e + fk.2 + w)
    (t + 1, temp, a, rotl 30 b, c, d)

/-- Process one 64-byte chunk against the running hash state. -/
def sha1Chunk (h : Nat × Nat × Nat × Nat × Nat) (chunk : List Nat) :
    Nat × Nat × Nat × Nat × Nat :=
  match h with
  | (h0, h1, h2, h3, h4) =>
    let ws := (chunkList 4 chunk).map word4
    let sched := sha1Extend 64 ws.reverse
    let fin := sched.foldl sha1Round (0, h0, h1, h2, h3, h4)
    match fin with
    | (_, a, b, c, d, e) => (w32 (h0 + a), w32 (h1 + b), w32 (h2 + c), w32 (h3 + d), w32 (h4 + e))

/-- Lowercase hexadecimal digit (codes 48-57 then 97-102). -/
def hexDigit (n : Nat) : Char :=
  Char.ofNat (if n < 10 then 48 + n else 87 + n)

/-- Eight lowercase hex digits of a 32-bit word (big-endian). -/
def toHex8 (w : Nat) : List Char :=
  (List.range 8).map (fun i => hexDigit (w / 16 ^ (7 - i) % 16))

/-- SHA-1 hex digest of a byte list (`hashlib.sha1(raw).hexdigest()`). -/
def sha1Hex (msg : List Nat) : String :=
  let h := (chunkList 64 (sha1Pad msg)).foldl sha1Chunk
    (0x67452301, 0xEFCDAB89, 0x98BADCFE, 0x10325476, 0xC3D2E1F0)
  match h with
  | (h0, h1, h2, h3, h4) =>
    (toHex8 h0 ++ toHex8 h1 ++ toHex8 h2 ++ toHex8 h3 ++ toHex8 h4).asString

/-- Embedding of `make_id` (update_archive_only.py, lines 726-728): the
first sixteen hex digits of the SHA-1 of the UTF-8 bytes of
`url|title|published_at`. -/
def make_id (url title published_at : String) : String :=
  ((sha1Hex (utf8Encode (url ++ "|" ++ title ++ "|" ++ published_at))).toList.take 16).asString

/-- One line of the persisted JSONL archive as `load_existing_ids` and
`append_entries` see it: either a blank/unparseable line (skipped by the
loader) or a parsed record carrying its `id` string (`str(row.get("id",
""))`; a record without an id parses as `record "" payload`) and an
opaque rendering of the rest of the record. -/
inductive FileLine where
  | malformed
  | record (id : String) (payload : String)
deriving DecidableEq, Repr

/-- An entry handed to `append_entries` (the pipeline builds these with a
string `id` from `make_id`); `payload` stands for the other fields. -/
structure Entry where
  id : String
  payload : String
deriving DecidableEq, Repr

/-- Embedding of `load_existing_ids` (update_archive_only.py, lines
731-747): the stripped, nonempty ids of the parseable lines.  The Python
set is modelled as a list used only through membership. -/
def load_existing_ids (file : List FileLine) : List String :=
  file.filterMap (fun l =>
    match l with
    | .malformed => none
    | .record id _ =>
      let rid := pyStrip id
      if rid = "" then none else some rid)

/-- The append loop of `append_entries`: `existing` is the in-memory id
set (file ids plus ids written so far); returns the written lines and the
`added` counter. -/
def appendGo (existing : List String) : List Entry → List FileLine × Nat
  | [] => ([], 0)
  | e :: rest =>
    if e.id = "" ∨ existing.contains e.id then appendGo existing rest
    else
      let p := appendGo (e.id :: existing) rest
      (FileLine.record e.id e.payload :: p.1, p.2 + 1)

/-- Embedding of `append_entries` (lines 750-762): the resulting file
contents (pre-existing lines plus appended records) and the returned
count. -/
def append_entries (file : List FileLine) (entries : List Entry) : List FileLine × Nat :=
  let p := appendGo (load_existing_ids file) entries
  (file ++ p.1, p.2)

/-- The raw (unstripped) ids of the records stored in a file. -/
def storedIds (file : List FileLine) : List String :=
  file.filterMap (fun l =>
    match l with
    | .malformed => none
    | .record id _ => some id)

/-- Number of stored records carrying exactly the given id. -/
def countId (file : List FileLine) (i : String) : Nat :=
  (file.filter (fun l =>
    match l with
    | .malformed => false
    | .record id _ => id = i)).length

/-- An `ArticleCandidate` as returned by the search API: the fields
`main`/`unique_articles` read, as optional strings (a JSON field can be
absent or null). -/
structure Article where
  title : Option String
  url : Option String
  description : Option String
  content : Option String
  publishedAt : Option String
deriving DecidableEq, Repr

/-- The loop of `unique_articles` (lines 765-780): `seen` is the set of
lowercased cleaned titles, `outLen` the current output length (the
`len(out) >= limit` break happens after each append). -/
def uniqueGo (limit : Nat) (seen : List String) (outLen : Nat) : List Article → List Article
  | [] => []
  | a :: rest =>
    let title := clean_text (a.title.getD "")
    let url := pyStrip (a.url.getD "")
    if title = "" ∨ url = "" then uniqueGo limit seen outLen rest
    else
      let key := pyLower title
      if seen.contains key then uniqueGo limit seen outLen rest
      else if limit ≤ outLen + 1 then [a]
      else a :: uniqueGo limit (key :: seen) (outLen + 1) rest

/-- Embedding of `unique_articles` (lines 765-780). -/
def unique_articles (articles : List Article) (limit : Nat) : List Article :=
  uniqueGo limit [] 0 articles

/-- Python `a or b` on strings (empty is falsy). -/
def pyOrS (a b : String) : String :=
  if a = "" then b else a

/-- The `body_raw = extracted or content or desc` step of `main`
(line 818), on the already-cleaned `content`/`desc`. -/
def mainBodyRaw (extracted contentC descC : String) : String :=
  pyOrS extracted (pyOrS contentC descC)

/-- The stored `body` field computed by `main` (lines 812-831) for one
article, given the raw API strings and the text returned by
`fetch_article_body` (the network boundary): clean the fields, pick
`body_raw`, format it, and store `formatted_body or summary` where
`summary = formatted_body or clean_text(desc or body_raw)`. -/
def mainStoredBody (rawTitle rawDesc rawContent extracted : String) : String :=
  let title := clean_text rawTitle
  let descC := clean_text rawDesc
  let contentC := clean_text rawContent
  let body_raw := mainBodyRaw extracted contentC descC
  let formatted_body := format_crawled_body title descC body_raw
  let summary := pyOrS formatted_body (clean_text (pyOrS descC body_raw))
  pyOrS formatted_body summary

/-- The default `MAX_SUMMARY_LINES` configuration value. -/
def MAX_SUMMARY_LINES : Nat := 15

/-- Modelled from the spec, for comparison with `mainStoredBody`: the
claimed storage precedence "the formatted/filtered extraction text when
it is non-empty, else the bullet summary, else the raw description",
with the bullet summary produced by the local summarizer chain
(`summarize` with no reasoning service configured). -/
def specStoredBody (rawTitle rawDesc rawContent extracted : String) : String :=
  let title := clean_text rawTitle
  let descC := clean_text rawDesc
  let contentC := clean_text rawContent
  let body_raw := mainBodyRaw extracted contentC descC
  let formatted_body := format_crawled_body title descC body_raw
  if formatted_body ≠ "" then formatted_body
  else
    let bullet := summarize_local MAX_SUMMARY_LINES title descC body_raw
    if bullet ≠ "" then bullet else descC

/-- The marker-guarded mojibake step of build_data.py's `_fix_mojibake`,
parameterised by the repair oracle: `repair s = none` models the
`except` branch (the repair raising), in which case the text is returned
unchanged; `some r` is a successful round trip. -/
def fix_mojibake_with (repair : String → Option String) (text : String) : String :=
  if !hasMojibake text then text
  else
    match repair text with
    | some r => r
    | none => text

/-- The concrete repair of build_data.py (lines 17-23): the
latin-1/UTF-8 round trip, which with `errors="ignore"` on both sides is
total and never takes the `except` branch. -/
def pyRepair (s : String) : Option String :=
  some (mojibakeRoundTrip s)

/-- Embedding of build_data.py's `sanitize(text, field)` (lines 44-52),
parameterised by the mojibake-repair oracle; `none` input models a
null/absent field.  `_strip_feed_noise` (lines 26-41) is the same ordered
pattern table as `clean_text`'s trailing block and is shared as
`stripFeedNoise`. -/
def sanitizeWith (repair : String → Option String) (text : Option String) (field : String) : String :=
  match text with
  | none => ""
  | some t =>
    let s := pyStrip (((t.toList.filter (· ≠ '\u0000'))).asString)
    let s := htmlUnescape s
    let s := fix_mojibake_with repair s
    if field = "summary" ∨ field = "body" then stripFeedNoise s else s

/-- `sanitize` with the script's actual (total) repair. -/
def sanitize (text : Option String) (field : String) : String :=
  sanitizeWith pyRepair text field

/-- The sanitize pipeline with the repair step skipped entirely (what the
function computes when the repair attempt fails). -/
def sanitizeUnrepaired (text : Option String) (field : String) : String :=
  match text with
  | none => ""
  | some t =>
    let s := pyStrip (((t.toList.filter (· ≠ '\u0000'))).asString)
    let s := htmlUnescape s
    if field = "summary" ∨ field = "body" then stripFeedNoise s else s

/-- Embedding of `looks_like_bullets` (build_data.py, lines 55-59). -/
def looks_like_bullets (text : String) : Bool :=
  let lines := ((pySplitlines text).map pyStrip).filter (· ≠ "")
  match lines with
  | [] => false
  | first :: _ => first.startsWith "-"

/-- The bullet loop of `make_bullet_summary` (`out` with its
`len(out) >= max_lines` break). -/
def mbsBullets (maxLines : Nat) : List String → Nat → List String
  | [], _ => []
  | s :: rest, n =>
    if maxLines ≤ n then []
    else
      let sentence := pyStrip (sanitize (some s) "body")
      if sentence = "" then mbsBullets maxLines rest n
      else ("- " ++ addPunct sentence) :: mbsBullets maxLines rest (n + 1)

/-- Embedding of `make_bullet_summary` (build_data.py, lines 62-80);
`maxLines` is the default argument 24. -/
def make_bullet_summary (text : String) (maxLines : Nat) : String :=
  let t := sanitize (some text) "body"
  if t = "" then ""
  else
    let sents0 := (splitSentences t).filterMap (fun s =>
      let u := stripCharsBoth [' ', '-'] s
      if s = "" ∨ u = "" then none else some u)
    let sents := if sents0.isEmpty then [t] else sents0
    joinSep "\n" ((mbsBullets maxLines sents 0).take maxLines)

/-- Python `a or b` on optional strings (`None` and `""` are falsy). -/
def pyOrO (a b : Option String) : Option String :=
  match a with
  | none => b
  | some s => if s = "" then b else some s

/-- An archive record as read back by build_data.py's export loop: the
optional string fields the loop consults. -/
structure InRecord where
  id : Option String
  title : Option String
  summary : Option String
  body : Option String
  ai_summary : Option String
  thumbnail : Option String
  scraped_body : Option String
  url : Option String
  category : Option String
  article_published_at : Option String
  published_at : Option String
  fetched_at : Option String
  archived_at : Option String
deriving DecidableEq, Repr

/-- One line of the source JSONL as the export reads it. -/
inductive SrcLine where
  | malformed
  | ok (r : InRecord)
deriving DecidableEq, Repr

/-- A derived export row (the dict appended to `rows`). -/
structure OutRow where
  id : String
  title : String
  summary : String
  body : String
  ai_summary : String
  thumbnail : String
  scraped_body : String
  url : String
  category : String
  article_published_at : String
  fetched_at : String
  published_at : String
  archived_at : String
deriving DecidableEq, Repr

/-- The per-record row derivation of build_data.py's `main` loop (lines
98-136): sanitize the display fields, rebuild bullet summaries when the
stored summary is not already bulleted, coalesce the timestamp fields,
and default an empty `ai_summary` to the sentinel. -/
def buildRow (r : InRecord) : OutRow :=
  let summary := sanitize r.summary "summary"
  let body := sanitize r.body "body"
  let ai := sanitize r.ai_summary "summary"
  let scraped := sanitize r.scraped_body "body"
  let p :=
    if looks_like_bullets summary then (summary, summary)
    else
      let sourceForSummary := pyOrS scraped (pyOrS body summary)
      let bullet := make_bullet_summary sourceForSummary 24
      if bullet ≠ "" then (bullet, bullet) else (summary, body)
  { id := sanitize r.id "id"
    title := sanitize r.title "title"
    summary := p.1
    body := p.2
    ai_summary := pyOrS ai AI_SENTINEL
    thumbnail := sanitize r.thumbnail "thumbnail"
    scraped_body := scraped
    url := sanitize r.url "url"
    category := sanitize r.category "category"
    article_published_at := sanitize (pyOrO r.article_published_at r.published_at) "article_published_at"
    fetched_at := sanitize (pyOrO r.fetched_at r.archived_at) "fetched_at"
    published_at := sanitize r.published_at "published_at"
    archived_at := sanitize r.archived_at "archived_at" }

/-- The rows list before sorting: every successfully parsed line, in file
order, through `buildRow` (malformed lines are skipped). -/
def buildRows (lines : List SrcLine) : List OutRow :=
  lines.filterMap (fun l =>
    match l with
    | .malformed => none
    | .ok r => some (buildRow r))

/-- The sort key `x.get("fetched_at") or x.get("archived_at")` of the
derived rows (both fields are always present strings in a derived row). -/
def exportKey (o : OutRow) : String :=
  pyOrS o.fetched_at o.archived_at

/-- The descending comparison `rows.sort(key=..., reverse=True)` sorts
by. -/
def exportGE (a b : OutRow) : Prop :=
  exportKey b ≤ exportKey a

instance : DecidableRel exportGE := fun a b =>
  inferInstanceAs (Decidable (exportKey b ≤ exportKey a))

/-- The export of build_data.py's `main`: derived rows sorted descending
by `exportKey` (modelled with insertion sort; the claim constrains only
the multiset of rows and the pairwise order). -/
def exportRows (lines : List SrcLine) : List OutRow :=
  List.insertionSort exportGE (buildRows lines)

/-- An HTML document is modelled at the parser-event level: the stream of
`handle_starttag` / `handle_endtag` / `handle_data` / `handle_comment`
calls `html.parser.HTMLParser` delivers to the extractor subclasses
(their only interface to the raw markup).  Attribute values may be `none`
(`v or ""` in the handlers). -/
inductive HtmlEvent where
  | startTag (tag : String) (attrs : List (String × Option String))
  | endTag (tag : String)
  | dataText (s : String)
  | comment (s : String)
deriving DecidableEq, Repr

/-- `attrs_map.get(key, "")` after the dict comprehension
`{k.lower(): (v or "") for k, v in attrs}` (later duplicates win). -/
def attrGet (attrs : List (String × Option String)) (key : String) : String :=
  match attrs.reverse.find? (fun p => pyLower p.1 = key) with
  | some p => p.2.getD ""
  | none => ""

/-- The skip-tag set shared by the two p-text extractors. -/
def SKIP_TAGS : List String := ["script", "style", "noscript", "iframe", "svg"]

/-- `_is_step1_target`: a `div`/`article` whose `itemprop` or `id`
attribute equals `articlebody` after strip+lower. -/
def isStep1Target (t : String) (attrs : List (String × Option String)) : Bool :=
  (t = "div" || t = "article") &&
  (pyLower (pyStrip (attrGet attrs "itemprop")) = "articlebody" ||
   pyLower (pyStrip (attrGet attrs "id")) = "articlebody")

/-- A container-stack node of `PriorityPExtractor` (step 0 nodes never
accumulate anything; their lists stay empty). -/
structure PNode where
  tag : String
  step : Nat
  paragraphs : List String
  textParts : List String
deriving DecidableEq, Repr

/-- The mutable state of `PriorityPExtractor`. -/
structure PState where
  skipDepth : Nat
  pending : Bool
  stack : List PNode
  curP : Option (List String)
  cand1 : List (Nat × String)
  cand2 : List (Nat × String)
deriving DecidableEq, Repr

/-- The initial `PriorityPExtractor` state. -/
def pInit : PState :=
  { skipDepth := 0, pending := false, stack := [], curP := none, cand1 := [], cand2 := [] }

/-- `_current_target`: the innermost stack node with step 1 or 2. -/
def currentTarget (stack : List PNode) : Option PNode :=
  stack.find? (fun n => n.step = 1 || n.step = 2)

/-- Append `para` to the paragraph list of the innermost target node. -/
def pushParagraph (para : String) : List PNode → List PNode
  | [] => []
  | n :: rest =>
    if n.step = 1 || n.step = 2 then { n with paragraphs := n.paragraphs ++ [para] } :: rest
    else n :: pushParagraph para rest

/-- Append a data fragment to the text parts of the innermost target. -/
def pushTextPart (raw : String) : List PNode → List PNode
  | [] => []
  | n :: rest =>
    if n.step = 1 || n.step = 2 then { n with textParts := n.textParts ++ [raw] } :: rest
    else n :: pushTextPart raw rest

/-- `PriorityPExtractor.handle_starttag`. -/
def pStart (st : PState) (tag : String) (attrs : List (String × Option String)) : PState :=
  let t := pyLower tag
  let st := if SKIP_TAGS.contains t then { st with skipDepth := st.skipDepth + 1 } else st
  if 0 < st.skipDepth then st
  else
    let step : Nat :=
      if isStep1Target t attrs then 1
      else if (t = "section" || t = "div") && st.pending then 2
      else 0
    let node : PNode := { tag := t, step := step, paragraphs := [], textParts := [] }
    let st := { st with stack := node :: st.stack, pending := if step = 2 then false else st.pending }
    if t = "p" && (currentTarget st.stack).isSome then { st with curP := some [] } else st

/-- The candidate resolution when a step-1/2 node is popped
(`handle_endtag`, lines 482-492): paragraphs if any, else the cleaned
nonempty lines of the joined text parts, through the noise filter,
truncated to `MAX_SOURCE_CHARS`. -/
def MAX_SOURCE_CHARS : Nat := 16000

/-- Truncation `text[:MAX_SOURCE_CHARS]`. -/
def truncChars (n : Nat) (s : String) : String :=
  (s.toList.take n).asString

/-- Resolve a popped target node into a candidate, if any. -/
def resolveNode (node : PNode) : Option (Nat × String) :=
  let rawLines := (pySplitlines (normalize_inner_text (joinSep " " node.textParts))).filterMap
    (fun x =>
      let c := clean_text x
      if c = "" then none else some c)
  let base := if node.paragraphs.isEmpty then rawLines else node.paragraphs
  let paragraphs := filter_article_paragraphs base
  if paragraphs.isEmpty then none
  else
    let text := truncChars MAX_SOURCE_CHARS (joinSep "\n" paragraphs)
    some (text.length, text)

/-- `PriorityPExtractor.handle_endtag`. -/
def pEnd (st : PState) (tag : String) : PState :=
  let t := pyLower tag
  if SKIP_TAGS.contains t && 0 < st.skipDepth then { st with skipDepth := st.skipDepth - 1 }
  else if 0 < st.skipDepth then st
  else
    let st :=
      match st.curP with
      | some parts =>
        if t = "p" then
          let para := normalize_inner_text (joinSep " " parts)
          let st' :=
            if para ≠ "" && (currentTarget st.stack).isSome then
              { st with stack := pushParagraph para st.stack }
            else st
          { st' with curP := none }
        else st
      | none => st
    match st.stack with
    | [] => st
    | node :: rest =>
      let st := { st with stack := rest }
      if node.step = 1 || node.step = 2 then
        match resolveNode node with
        | some cand =>
          if node.step = 1 then { st with cand1 := st.cand1 ++ [cand] }
          else { st with cand2 := st.cand2 ++ [cand] }
        | none => st
      else st

/-- `PriorityPExtractor.handle_data`. -/
def pData (st : PState) (data : String) : PState :=
  if 0 < st.skipDepth then st
  else
    let st :=
      let raw := normalize_inner_text data
      if (currentTarget st.stack).isSome && raw ≠ "" then
        { st with stack := pushTextPart raw st.stack }
      else st
    match st.curP with
    | none => st
    | some parts =>
      let txt := clean_text data
      if txt ≠ "" then { st with curP := some (parts ++ [txt]) } else st

/-- `PriorityPExtractor.handle_comment`: a comment whose cleaned,
space-stripped text contains the Korean "article body" marker arms the
step-2 capture. -/
def pComment (st : PState) (data : String) : PState :=
  let txt := ((clean_text data).toList.filter (· ≠ ' ')).asString
  if containsSubstr txt "기사본문" then { st with pending := true } else st

/-- Feed one event to `PriorityPExtractor`. -/
def pFeed1 (st : PState) (e : HtmlEvent) : PState :=
  match e with
  | .startTag t attrs => pStart st t attrs
  | .endTag t => pEnd st t
  | .dataText s => pData st s
  | .comment s => pComment st s

/-- `candidates.sort(key=lambda x: -x[0])` then `[0][1]`: Python's sort
is stable, so the head of the descending sort is the earliest candidate
of maximal length. -/
def bestCandidate (cs : List (Nat × String)) : Option String :=
  match cs.foldl (fun best c =>
    match best with
    | none => some c
    | some b => if b.1 < c.1 then some c else some b) none with
  | some b => some b.2
  | none => none

/-- Embedding of `extract_priority_p_text` (lines 528-537) over an event
stream. -/
def extract_priority_p_text (doc : List HtmlEvent) : String :=
  let st := doc.foldl pFeed1 pInit
  match bestCandidate st.cand1 with
  | some t => t
  | none =>
    match bestCandidate st.cand2 with
    | some t => t
    | none => ""

/-- The mutable state of `BodyPExtractor`. -/
structure BState where
  inBody : Bool
  skipDepth : Nat
  inP : Bool
  curParts : List String
  paragraphs : List String
deriving DecidableEq, Repr

/-- The initial `BodyPExtractor` state. -/
def bInit : BState :=
  { inBody := false, skipDepth := 0, inP := false, curParts := [], paragraphs := [] }

/-- Feed one event to `BodyPExtractor` (the `body_text_parts` list is
never read by `extract_body_p_text` and is omitted). -/
def bFeed1 (st : BState) (e : HtmlEvent) : BState :=
  match e with
  | .startTag tag _ =>
    let t := pyLower tag
    if t = "body" then { st with inBody := true }
    else if !st.inBody then st
    else if SKIP_TAGS.contains t then { st with skipDepth := st.skipDepth + 1 }
    else if 0 < st.skipDepth then st
    else if t = "p" then { st with inP := true, curParts := [] }
    else st
  | .endTag tag =>
    let t := pyLower tag
    if t = "body" then { st with inBody := false }
    else if !st.inBody then st
    else if SKIP_TAGS.contains t && 0 < st.skipDepth then { st with skipDepth := st.skipDepth - 1 }
    else if 0 < st.skipDepth then st
    else if t = "p" && st.inP then
      let para := normalize_inner_text (joinSep " " st.curParts)
      { st with paragraphs := if para ≠ "" then st.paragraphs ++ [para] else st.paragraphs,
                curParts := [], inP := false }
    else st
  | .dataText data =>
    if !st.inBody || 0 < st.skipDepth then st
    else if !st.inP then st
    else
      let txt := clean_text data
      if txt ≠ "" then { st with curParts := st.curParts ++ [txt] } else st
  | .comment _ => st

/-- Embedding of `extract_body_p_text` (lines 599-603): the whole
document-body paragraph text. -/
def extract_body_p_text (doc : List HtmlEvent) : String :=
  let st := doc.foldl bFeed1 bInit
  truncChars MAX_SOURCE_CHARS (joinSep "\n" (filter_article_paragraphs st.paragraphs))

/-- A stack node of `ArticleBodyInnerTextExtractor`. -/
structure INode where
  tag : String
  isTarget : Bool
  parts : List String
deriving DecidableEq, Repr

/-- The mutable state of `ArticleBodyInnerTextExtractor` (its skip set
additionally contains `img`). -/
structure IState where
  skipDepth : Nat
  stack : List INode
  candidates : List (Nat × String)
deriving DecidableEq, Repr

/-- The skip-tag set of `ArticleBodyInnerTextExtractor`. -/
def ISKIP_TAGS : List String := ["script", "style", "noscript", "iframe", "svg", "img"]

/-- Feed one event to `ArticleBodyInnerTextExtractor` (note: its
`handle_starttag` pushes a node even inside skip regions, and its
`handle_endtag` pops unconditionally and propagates the accumulated text
to the parent node). -/
def iFeed1 (st : IState) (e : HtmlEvent) : IState :=
  match e with
  | .startTag tag attrs =>
    let t := pyLower tag
    let st := if ISKIP_TAGS.contains t then { st with skipDepth := st.skipDepth + 1 } else st
    let isTarget := isStep1Target t attrs
    { st with stack := { tag := t, isTarget := isTarget, parts := [] } :: st.stack }
  | .endTag tag =>
    let t := pyLower tag
    match st.stack with
    | [] => st
    | node :: rest =>
      let st := { st with stack := rest }
      let text := normalize_inner_text (joinSep " " node.parts)
      let st :=
        if node.isTarget && text ≠ "" then
          let lines := filter_article_paragraphs ((pySplitlines text).map clean_text)
          if !lines.isEmpty then
            let val := truncChars MAX_SOURCE_CHARS (joinSep "\n" lines)
            { st with candidates := st.candidates ++ [(val.length, val)] }
          else st
        else st
      let st :=
        match st.stack with
        | parent :: rest2 =>
          if text ≠ "" then { st with stack := { parent with parts := parent.parts ++ [text] } :: rest2 }
          else st
        | [] => st
      if ISKIP_TAGS.contains t && 0 < st.skipDepth then { st with skipDepth := st.skipDepth - 1 }
      else st
  | .dataText data =>
    if 0 < st.skipDepth then st
    else
      match st.stack with
      | [] => st
      | node :: rest =>
        let txt := normalize_inner_text data
        if txt ≠ "" then { st with stack := { node with parts := node.parts ++ [txt] } :: rest }
        else st
  | .comment _ => st

/-- Embedding of `extract_articlebody_inner_text` (lines 650-656). -/
def extract_articlebody_inner_text (doc : List HtmlEvent) : String :=
  let st := doc.foldl iFeed1 { skipDepth := 0, stack := [], candidates := [] }
  match bestCandidate st.candidates with
  | some t => t
  | none => ""

/-- The strategy chain of `fetch_article_body` (lines 659-675) once the
document has been fetched and decoded: priority-tagged/comment-anchored
containers first, then whole-body paragraph text, then articleBody inner
text (network or decoding failures yield `""` upstream and are not part
of the per-document extraction). -/
def fetch_article_body_doc (doc : List HtmlEvent) : String :=
  let priority := extract_priority_p_text doc
  if priority ≠ "" then priority
  else
    let bodyP := extract_body_p_text doc
    if bodyP ≠ "" then bodyP
    else extract_articlebody_inner_text doc

/-! ## Theorems -/

/-- C2: identifier derivation is deterministic — `make_id` is a pure
function of its three string arguments (the embedding has no ambient
state), so component-wise equal triples produce the identical identifier. -/
theorem make_id_deterministic (u t p u' t' p' : String)
    (hu : u = u') (ht : t = t') (hp : p = p') :
    make_id u t p = make_id u' t' p' := by
  subst hu; subst ht; subst hp; rfl

/-- Witness for `make_id_deterministic` at a concrete triple. -/
theorem make_id_deterministic_witness :
    make_id "https://news.example/a" "제목" "2024-01-01T00:00:00Z" =
      make_id "https://news.example/a" "제목" "2024-01-01T00:00:00Z" :=
  make_id_deterministic "https://news.example/a" "제목" "2024-01-01T00:00:00Z"
    "https://news.example/a" "제목" "2024-01-01T00:00:00Z" rfl rfl rfl

/-- A readable string is nonempty. -/
theorem has_readable_ne_empty {s : String} (h : has_readable_content s = true) : s ≠ "" := by
  intro he
  rw [he] at h
  exact absurd h (by decide)

/-- C4: `build_ai_summary` always returns a non-empty string, for every
input and every behaviour of the external reasoning service (successful
response, failure, or no configured key); and whenever the noise-filtered
source text has no alphanumeric or Hangul character, the result is
exactly the sentinel `요약할 수 없는 내용입니다`. -/
theorem build_ai_summary_nonempty_sentinel (llm : Option String)
    (title description body_text : String) :
    build_ai_summary llm title description body_text ≠ "" ∧
    (has_readable_content (minimal_context_filter title description body_text) = false →
      build_ai_summary llm title description body_text = AI_SENTINEL) := by
  unfold build_ai_summary
  cases h : has_readable_content (minimal_context_filter title description body_text) with
  | false =>
    refine ⟨?_, fun _ => by simp [h]⟩
    simp only [h, Bool.not_false, if_pos]
    decide
  | true =>
    refine ⟨?_, fun hfalse => by simp [h] at hfalse⟩
    simp only [h, Bool.not_true, Bool.false_eq_true, if_false]
    cases llm with
    | some out =>
      by_cases hs : has_readable_content (normalize_ai_summary_text out) = true
      · simpa [hs] using has_readable_ne_empty hs
      · simp only [Bool.not_eq_true] at hs
        simp [hs]
        decide
    | none =>
      by_cases hs : has_readable_content (fallback_ai_summary title
          (minimal_context_filter title description body_text)) = true
      · simpa [hs] using has_readable_ne_empty hs
      · simp only [Bool.not_eq_true] at hs
        simp [hs]
        decide

/-- Witness for `build_ai_summary_nonempty_sentinel`: the empty article
in local-fallback mode yields exactly the sentinel. -/
theorem build_ai_summary_nonempty_sentinel_witness :
    build_ai_summary none "" "" "" ≠ "" ∧ build_ai_summary none "" "" "" = AI_SENTINEL :=
  ⟨(build_ai_summary_nonempty_sentinel none "" "" "").1,
   (build_ai_summary_nonempty_sentinel none "" "" "").2 (by decide)⟩

/-- C8: `sanitize` is total — a null/absent input yields the empty
string and every code path produces a string (the embedding is a total
function for every repair oracle); and the mojibake repair is atomic: a
failing repair (`repair s = none`, the `except` branch of
`_fix_mojibake`) leaves the string exactly as it was before the repair
attempt, so a sanitize run whose repair always fails equals the pipeline
with the repair step skipped. -/
theorem sanitize_total_and_repair_atomic (repair : String → Option String)
    (t : Option String) (f : String) :
    (t = none → sanitizeWith repair t f = "") ∧
    (∀ s, repair s = none → fix_mojibake_with repair s = s) ∧
    ((∀ s, repair s = none) → sanitizeWith repair t f = sanitizeUnrepaired t f) := by
  refine ⟨fun ht => by rw [ht]; rfl, fun s hs => ?_, fun hall => ?_⟩
  · unfold fix_mojibake_with
    rw [hs]
    split <;> rfl
  · cases t with
    | none => rfl
    | some s =>
      have hfix : ∀ u, fix_mojibake_with repair u = u := by
        intro u
        unfold fix_mojibake_with
        rw [hall u]
        split <;> rfl
      simp only [sanitizeWith, sanitizeUnrepaired, hfix]

/-- Witness for `sanitize_total_and_repair_atomic` with an always-failing
repair oracle and a marker-bearing input. -/
theorem sanitize_total_and_repair_atomic_witness :
    sanitizeWith (fun _ => none) none "body" = "" ∧
    fix_mojibake_with (fun _ => none) "Ã broken" = "Ã broken" ∧
    sanitizeWith (fun _ => none) (some "Ã broken") "body" =
      sanitizeUnrepaired (some "Ã broken") "body" :=
  ⟨(sanitize_total_and_repair_atomic (fun _ => none) none "body").1 rfl,
   (sanitize_total_and_repair_atomic (fun _ => none) none "body").2.1 "Ã broken" rfl,
   (sanitize_total_and_repair_atomic (fun _ => none) (some "Ã broken") "body").2.2 (fun _ => rfl)⟩

instance : IsTotal OutRow exportGE :=
  ⟨fun a b => le_total (exportKey b) (exportKey a)⟩

instance : IsTrans OutRow exportGE :=
  ⟨fun _ _ _ hab hbc => le_trans hbc hab⟩

/-- C9: the derived export contains exactly the successfully parsed
records (as derived rows, a permutation of the in-order row list) and is
pairwise sorted descending by the most recent available timestamp — the
derived fetch timestamp when non-empty, else the derived archived
timestamp (`exportKey`). -/
theorem export_rows_sorted (lines : List SrcLine) :
    (exportRows lines).Perm (buildRows lines) ∧
    (exportRows lines).Pairwise exportGE := by
  constructor
  · exact List.perm_insertionSort exportGE (buildRows lines)
  · exact List.sorted_insertionSort exportGE (buildRows lines)

/-- C3 counterexample: inputs on which `filter_article_paragraphs`
contradicts the claim.  Every line of `["  short  "]` is dropped by the
heuristics (the cleaned line `"short"` is below the minimum length), yet
the function returns the cleaned lines `["short"]`, not the original
lines unchanged; and on the non-empty input `["   "]` (whose only line
cleans to empty) the result is empty. -/
theorem filter_article_paragraphs_counterexample :
    strictKept ["  short  "] = [] ∧
    filter_article_paragraphs ["  short  "] = ["short"] ∧
    filter_article_paragraphs ["  short  "] ≠ ["  short  "] ∧
    strictKept ["   "] = [] ∧
    filter_article_paragraphs ["   "] = [] ∧ (["   "] : List String) ≠ [] := by
  decide

/-- C3 as amended: when every line is dropped by the heuristics
(`strictKept ps = []`), `filter_article_paragraphs` returns the cleaned
lines (`clean_text` of each input, omitting those that clean to empty)
rather than the original lines; and its result is empty exactly when
every input line cleans to the empty string (so it is non-empty whenever
some line has non-empty cleaned text). -/
theorem filter_article_paragraphs_fallback (ps : List String) :
    (strictKept ps = [] → filter_article_paragraphs ps = cleanedNonempty ps) ∧
    (filter_article_paragraphs ps = [] ↔ ∀ p ∈ ps, clean_text p = "") := by
  constructor
  · intro h
    simp [filter_article_paragraphs, h]
  · by_cases hk : strictKept ps = []
    · simp only [filter_article_paragraphs, hk, List.isEmpty_nil, if_pos]
      rw [show cleanedNonempty ps = ps.filterMap (fun p =>
        let c := clean_text p
        if c = "" then none else some c) from rfl, List.filterMap_eq_nil_iff]
      constructor
      · intro h p hp
        have := h p hp
        by_cases hc : clean_text p = ""
        · exact hc
        · simp [hc] at this
      · intro h p hp
        simp [h p hp]
    · have hne : ¬ (strictKept ps).isEmpty = true := by
        simpa [List.isEmpty_iff] using hk
      simp only [filter_article_paragraphs, hne, if_false]
      constructor
      · intro h
        exact absurd h hk
      · intro hall
        exfalso
        apply hk
        rw [show strictKept ps = ps.filterMap strictKeepLine from rfl, List.filterMap_eq_nil_iff]
        intro p hp
        simp [strictKeepLine, hall p hp]

/-- Witness for `filter_article_paragraphs_fallback` at concrete inputs. -/
theorem filter_article_paragraphs_fallback_witness :
    filter_article_paragraphs ["  short  "] = cleanedNonempty ["  short  "] ∧
    filter_article_paragraphs ["   "] = [] :=
  ⟨(filter_article_paragraphs_fallback ["  short  "]).1 (by decide),
   (filter_article_paragraphs_fallback ["   "]).2.mpr (by decide)⟩

/-- A concrete document (as its parser-event stream) with both a
priority-tagged `articleBody` container and additional whole-body
paragraph text; it corresponds to the markup
`<html><body><div itemprop="articleBody"><p>Container article paragraph
text here.</p></div><p>Other body paragraph text goes here
too.</p></body></html>`. -/
def prioDoc : List HtmlEvent :=
  [ .startTag "html" [], .startTag "body" [],
    .startTag "div" [("itemprop", some "articleBody")],
    .startTag "p" [], .dataText "Container article paragraph text here.", .endTag "p",
    .endTag "div",
    .startTag "p" [], .dataText "Other body paragraph text goes here too.", .endTag "p",
    .endTag "body", .endTag "html" ]

/-- C6 counterexample: on `prioDoc` the whole-document body paragraph
text (after noise filtering) is non-empty, yet the extractor returns the
priority-tagged container's text, which differs from it — the
whole-document strategy is not the first, default-preferred strategy;
the priority-tagged container is evaluated first. -/
theorem extraction_order_counterexample :
    extract_body_p_text prioDoc ≠ "" ∧
    fetch_article_body_doc prioDoc = extract_priority_p_text prioDoc ∧
    extract_priority_p_text prioDoc = "Container article paragraph text here." ∧
    fetch_article_body_doc prioDoc ≠ extract_body_p_text prioDoc := by
  decide

/-- C6 as amended: the extractor evaluates its strategies in the code's
priority order — priority-tagged (`itemprop`/`id` articleBody) and
comment-anchored containers first, then whole-document body paragraph
text, then articleBody inner text — and the first strategy yielding a
non-empty result wins; hence whenever the priority extraction is
non-empty it, not the whole-document text, is returned. -/
theorem fetch_article_body_priority_order (doc : List HtmlEvent) :
    (extract_priority_p_text doc ≠ "" →
      fetch_article_body_doc doc = extract_priority_p_text doc) ∧
    (extract_priority_p_text doc = "" → extract_body_p_text doc ≠ "" →
      fetch_article_body_doc doc = extract_body_p_text doc) ∧
    (extract_priority_p_text doc = "" → extract_body_p_text doc = "" →
      fetch_article_body_doc doc = extract_articlebody_inner_text doc) := by
  refine ⟨fun h1 => ?_, fun h1 h2 => ?_, fun h1 h2 => ?_⟩
  · simp [fetch_article_body_doc, h1]
  · simp [fetch_article_body_doc, h1, h2]
  · simp [fetch_article_body_doc, h1, h2]

/-- Witness for `fetch_article_body_priority_order` on `prioDoc` (first
branch) and the empty document (third branch). -/
theorem fetch_article_body_priority_order_witness :
    fetch_article_body_doc prioDoc = extract_priority_p_text prioDoc ∧
    fetch_article_body_doc [] = extract_articlebody_inner_text [] :=
  ⟨(fetch_article_body_priority_order prioDoc).1 (by decide),
   (fetch_article_body_priority_order []).2.2 (by decide) (by decide)⟩

/-- The `formatted_body` value `main` computes for one article (the
`format_crawled_body` call on the cleaned fields, line 822). -/
def mainFormatted (rawTitle rawDesc rawContent extracted : String) : String :=
  format_crawled_body (clean_text rawTitle) (clean_text rawDesc)
    (mainBodyRaw extracted (clean_text rawContent) (clean_text rawDesc))

/-- C7 counterexample: an article whose extraction text `"→"` survives
the `or`-chain as `body_raw` but formats to nothing.  The stored body is
the empty string, while the spec's claimed precedence (formatted text,
else the bullet summary, else the description) would produce the
non-empty local bullet summary — the code stores `formatted_body or
clean_text(desc or body_raw)` and consults no bullet summary at all. -/
theorem stored_body_counterexample :
    mainStoredBody "Hello world news today." "" "" "→" = "" ∧
    specStoredBody "Hello world news today." "" "" "→" = "- Hello world news today." ∧
    mainStoredBody "Hello world news today." "" "" "→" ≠
      specStoredBody "Hello world news today." "" "" "→" := by
  decide

/-- C7 as amended: the stored `body` field follows the precedence the
code actually implements — the formatted/filtered extraction text when
non-empty; otherwise the re-cleaned description when the cleaned
description is non-empty; otherwise the re-cleaned raw body text (which
may be empty).  No bullet summary is involved. -/
theorem mainStoredBody_precedence (rt rd rc ex : String) :
    (mainFormatted rt rd rc ex ≠ "" →
      mainStoredBody rt rd rc ex = mainFormatted rt rd rc ex) ∧
    (mainFormatted rt rd rc ex = "" → clean_text rd ≠ "" →
      mainStoredBody rt rd rc ex = clean_text (clean_text rd)) ∧
    (mainFormatted rt rd rc ex = "" → clean_text rd = "" →
      mainStoredBody rt rd rc ex =
        clean_text (mainBodyRaw ex (clean_text rc) (clean_text rd))) := by
  refine ⟨fun h1 => ?_, fun h1 h2 => ?_, fun h1 h2 => ?_⟩
  · simp [mainStoredBody, pyOrS, mainFormatted] at h1 ⊢
    simp [h1]
  · simp only [mainStoredBody, mainFormatted] at h1 ⊢
    simp [h1, pyOrS, h2]
  · simp only [mainStoredBody, mainFormatted] at h1 ⊢
    rw [h2] at h1
    simp [h1, pyOrS, h2]

/-- Witness for `mainStoredBody_precedence`: a description-backed article
takes the formatted-extraction branch; the counterexample article takes
the empty-description fallback branch. -/
theorem mainStoredBody_precedence_witness :
    mainStoredBody "Tech news" "Interesting report about chips." "" "" =
      mainFormatted "Tech news" "Interesting report about chips." "" "" ∧
    mainStoredBody "Hello world news today." "" "" "→" =
      clean_text (mainBodyRaw "→" (clean_text "") (clean_text "")) :=
  ⟨(mainStoredBody_precedence "Tech news" "Interesting report about chips." "" "").1 (by decide),
   (mainStoredBody_precedence "Hello world news today." "" "" "→").2.2 (by decide) (by decide)⟩

/-- The case-insensitive dedup key of `unique_articles`
(`clean_text(a.get("title", "")).lower()`). -/
def articleKey (a : Article) : String :=
  pyLower (clean_text (a.title.getD ""))

/-- `l.contains a = false` is non-membership (String `BEq` is lawful). -/
theorem contains_false_iff {l : List String} {a : String} :
    l.contains a = false ↔ a ∉ l := by
  simp

/-- The loop output is a subsequence of its input. -/
theorem uniqueGo_sublist (limit : Nat) :
    ∀ (l : List Article) (seen : List String) (n : Nat),
      (uniqueGo limit seen n l).Sublist l := by
  intro l
  induction l with
  | nil => intro seen n; simp [uniqueGo]
  | cons a rest ih =>
    intro seen n
    simp only [uniqueGo]
    split
    · exact (ih seen n).cons a
    · split
      · exact (ih seen n).cons a
      · split
        · simp
        · exact (ih (articleKey a :: seen) (n + 1)).cons₂ a

/-- Every kept article has a non-empty cleaned title and a non-empty
stripped URL. -/
theorem uniqueGo_valid (limit : Nat) :
    ∀ (l : List Article) (seen : List String) (n : Nat),
      ∀ a ∈ uniqueGo limit seen n l,
        clean_text (a.title.getD "") ≠ "" ∧ pyStrip (a.url.getD "") ≠ "" := by
  intro l
  induction l with
  | nil => intro seen n a ha; simp [uniqueGo] at ha
  | cons b rest ih =>
    intro seen n a ha
    simp only [uniqueGo] at ha
    split at ha
    · exact ih seen n a ha
    · next hval =>
      push_neg at hval
      split at ha
      · exact ih seen n a ha
      · split at ha
        · simp at ha
          subst ha
          exact hval
        · rcases List.mem_cons.mp ha with rfl | hmem
          · exact hval
          · exact ih (articleKey b :: seen) (n + 1) a hmem

/-- Kept keys avoid the seen set and are pairwise distinct. -/
theorem uniqueGo_keys (limit : Nat) :
    ∀ (l : List Article) (seen : List String) (n : Nat),
      (∀ a ∈ uniqueGo limit seen n l, articleKey a ∉ seen) ∧
      (uniqueGo limit seen n l).Pairwise (fun a b => articleKey a ≠ articleKey b) := by
  intro l
  induction l with
  | nil => intro seen n; simp [uniqueGo]
  | cons b rest ih =>
    intro seen n
    simp only [uniqueGo]
    split
    · exact ih seen n
    · split
      · exact ih seen n
      · next hseen =>
        have hkb : articleKey b ∉ seen := by
          rw [← contains_false_iff]
          simpa [articleKey] using hseen
        split
        · constructor
          · intro a ha
            simp at ha
            subst ha
            exact hkb
          · simp
        · obtain ⟨hnm, hpw⟩ := ih (articleKey b :: seen) (n + 1)
          constructor
          · intro a ha
            rcases List.mem_cons.mp ha with rfl | hmem
            · exact hkb
            · exact fun hin => (hnm a hmem) (List.mem_cons_of_mem _ hin)
          · refine List.Pairwise.cons ?_ hpw
            intro a ha
            have := hnm a ha
            simp only [List.mem_cons] at this
            push_neg at this
            exact fun he => this.1 he.symm

/-- While the output length is below the limit, the loop adds at most
`limit - n` articles. -/
theorem uniqueGo_length (limit : Nat) :
    ∀ (l : List Article) (seen : List String) (n : Nat), n < limit →
      n + (uniqueGo limit seen n l).length ≤ limit := by
  intro l
  induction l with
  | nil => intro seen n h; simpa [uniqueGo] using h.le
  | cons b rest ih =>
    intro seen n h
    simp only [uniqueGo]
    split
    · exact ih seen n h
    · split
      · exact ih seen n h
      · split
        · simpa using h
        · next hbrk =>
          push_neg at hbrk
          have := ih (articleKey b :: seen) (n + 1) hbrk
          simpa [Nat.add_comm, Nat.add_assoc, Nat.add_left_comm] using this

/-- A concrete article candidate with a valid title and URL. -/
def artT1 : Article :=
  { title := some "T one", url := some "u",
    description := none, content := none, publishedAt := none }

/-- A second candidate whose title differs only in case from `artT1`. -/
def artT2 : Article :=
  { title := some "t ONE", url := some "u2",
    description := none, content := none, publishedAt := none }

/-- C10 counterexample: with `limit = 0` the `len(out) >= limit` break is
only checked after an append, so one article is kept and the result
length exceeds the limit. -/
theorem unique_articles_limit_counterexample :
    unique_articles [artT1] 0 = [artT1] ∧
    ¬ ((unique_articles [artT1] 0).length ≤ 0) := by
  decide

/-- C10 as amended: for every article list and every limit `N ≥ 1` (the
caller's `ITEM_LIMIT_PER_CATEGORY` is clamped to at least 1),
`unique_articles` returns a subsequence of the input in original order
whose every element has a non-empty cleaned title and a non-empty
stripped URL, in which no two elements share the same case-insensitive
cleaned title (only the first occurrence of each title is kept), and
whose length is at most `N`; with `N = 0` a single article can still be
kept, because the limit is only checked after an append. -/
theorem unique_articles_spec (articles : List Article) (limit : Nat) (h : 1 ≤ limit) :
    (unique_articles articles limit).Sublist articles ∧
    (∀ a ∈ unique_articles articles limit,
      clean_text (a.title.getD "") ≠ "" ∧ pyStrip (a.url.getD "") ≠ "") ∧
    (unique_articles articles limit).Pairwise (fun a b => articleKey a ≠ articleKey b) ∧
    (unique_articles articles limit).length ≤ limit := by
  refine ⟨uniqueGo_sublist limit articles [] 0, uniqueGo_valid limit articles [] 0,
    (uniqueGo_keys limit articles [] 0).2, ?_⟩
  simpa using uniqueGo_length limit articles [] 0 h

/-- Witness for `unique_articles_spec` at a concrete list and limit. -/
theorem unique_articles_spec_witness :
    (unique_articles [artT1, artT2] 5).Pairwise (fun a b => articleKey a ≠ articleKey b) ∧
    (unique_articles [artT1, artT2] 5).length ≤ 5 :=
  ⟨(unique_articles_spec [artT1, artT2] 5 (by decide)).2.2.1,
   (unique_articles_spec [artT1, artT2] 5 (by decide)).2.2.2⟩

/-- The id carried by a stored line (`""` for malformed lines). -/
def lineId : FileLine → String
  | .malformed => ""
  | .record id _ => id

/-- `load_existing_ids` distributes over file concatenation. -/
theorem load_existing_ids_append (f g : List FileLine) :
    load_existing_ids (f ++ g) = load_existing_ids f ++ load_existing_ids g :=
  List.filterMap_append f g _

/-- A stored id that is whitespace-strip-invariant and non-empty is in
the loaded id set. -/
theorem mem_load_of_stored {w : List FileLine} {i : String}
    (hst : pyStrip i = i) (hne : i ≠ "") (h : i ∈ storedIds w) :
    i ∈ load_existing_ids w := by
  simp only [storedIds, List.mem_filterMap] at h
  obtain ⟨l, hl, hid⟩ := h
  simp only [load_existing_ids, List.mem_filterMap]
  refine ⟨l, hl, ?_⟩
  cases l with
  | malformed => simp at hid
  | record id payload =>
    simp only [Option.some.injEq] at hid
    subst hid
    simp [hst, hne]

/-- The writer writes exactly as many lines as it counts. -/
theorem appendGo_len (es : List Entry) :
    ∀ ex : List String, (appendGo ex es).1.length = (appendGo ex es).2 := by
  induction es with
  | nil => intro ex; rfl
  | cons e rest ih =>
    intro ex
    simp only [appendGo]
    split
    · exact ih ex
    · simpa using ih (e.id :: ex)

/-- Every written line is a record of some batch entry whose id is
non-empty and not in the starting id set. -/
theorem appendGo_sound (es : List Entry) :
    ∀ ex : List String, ∀ l ∈ (appendGo ex es).1,
      ∃ e, e ∈ es ∧ l = FileLine.record e.id e.payload ∧ e.id ≠ "" ∧ e.id ∉ ex := by
  induction es with
  | nil => intro ex l hl; simp [appendGo] at hl
  | cons e rest ih =>
    intro ex l hl
    simp only [appendGo] at hl
    split at hl
    · obtain ⟨e', he', rest'⟩ := ih ex l hl
      exact ⟨e', List.mem_cons_of_mem _ he', rest'⟩
    · next hcond =>
      push_neg at hcond
      rcases List.mem_cons.mp hl with rfl | hmem
      · refine ⟨e, List.mem_cons_self _ _, rfl, hcond.1, ?_⟩
        rw [← contains_false_iff]
        simpa using hcond.2
      · obtain ⟨e', he', heq, hne, hnin⟩ := ih (e.id :: ex) l hmem
        exact ⟨e', List.mem_cons_of_mem _ he', heq,
          hne, fun hx => hnin (List.mem_cons_of_mem _ hx)⟩

/-- Written ids avoid the starting set and are pairwise distinct. -/
theorem appendGo_ids (es : List Entry) :
    ∀ ex : List String,
      (∀ l ∈ (appendGo ex es).1, lineId l ∉ ex) ∧
      (appendGo ex es).1.Pairwise (fun a b => lineId a ≠ lineId b) := by
  induction es with
  | nil => intro ex; simp [appendGo]
  | cons e rest ih =>
    intro ex
    simp only [appendGo]
    split
    · exact ih ex
    · next hcond =>
      push_neg at hcond
      obtain ⟨hnm, hpw⟩ := ih (e.id :: ex)
      have hkb : e.id ∉ ex := by
        rw [← contains_false_iff]
        simpa using hcond.2
      constructor
      · intro l hl
        rcases List.mem_cons.mp hl with rfl | hmem
        · simpa [lineId] using hkb
        · exact fun hx => (hnm l hmem) (List.mem_cons_of_mem _ hx)
      · refine List.Pairwise.cons ?_ hpw
        intro l hl
        have := hnm l hl
        simp only [List.mem_cons] at this
        push_neg at this
        simpa [lineId] using fun he => this.1 he.symm

/-- Every non-empty batch id ends up either written or already seen. -/
theorem appendGo_complete (es : List Entry) :
    ∀ ex : List String, ∀ e ∈ es, e.id ≠ "" →
      e.id ∈ storedIds (appendGo ex es).1 ∨ e.id ∈ ex := by
  induction es with
  | nil => intro ex e he; simp at he
  | cons e0 rest ih =>
    intro ex e he hne
    simp only [appendGo]
    split
    · next hcond =>
      rcases List.mem_cons.mp he with rfl | hmem
      · rcases hcond with h0 | hc
        · exact absurd h0 hne
        · exact Or.inr (by simpa using (List.elem_iff).mp hc)
      · exact ih ex e hmem hne
    · next hcond =>
      rcases List.mem_cons.mp he with rfl | hmem
      · left
        simp [storedIds]
      · rcases ih (e0.id :: ex) e hmem hne with hw | hseen
        · left
          simp only [storedIds, List.filterMap_cons] at hw ⊢
          simpa using Or.inr hw
        · rcases List.mem_cons.mp hseen with heq | hx
          · left
            simp [storedIds, heq]
          · exact Or.inr hx

/-- When every batch id is empty or already seen, nothing is written. -/
theorem appendGo_all_seen (es : List Entry) :
    ∀ ex : List String, (∀ e ∈ es, e.id = "" ∨ e.id ∈ ex) →
      appendGo ex es = ([], 0) := by
  induction es with
  | nil => intro ex _; rfl
  | cons e rest ih =>
    intro ex h
    have he := h e (List.mem_cons_self _ _)
    simp only [appendGo]
    have hcond : e.id = "" ∨ ex.contains e.id = true := by
      rcases he with h0 | hm
      · exact Or.inl h0
      · exact Or.inr (List.elem_iff.mpr hm)
    rw [if_pos hcond]
    exact ih ex (fun e' he' => h e' (List.mem_cons_of_mem _ he'))

/-- `countId` distributes over file concatenation. -/
theorem countId_append (f g : List FileLine) (i : String) :
    countId (f ++ g) i = countId f i + countId g i := by
  simp [countId, List.filter_append]

/-- A file with no record carrying id `i` counts zero. -/
theorem countId_eq_zero {f : List FileLine} {i : String}
    (h : ∀ p, FileLine.record i p ∉ f) : countId f i = 0 := by
  simp only [countId, List.length_eq_zero]
  rw [List.filter_eq_nil_iff]
  intro l hl
  cases l with
  | malformed => simp
  | record j p =>
    simp only [decide_eq_true_eq]
    intro hj
    subst hj
    exact h p hl

/-- A pairwise-id-distinct line list containing a record with id `i`
contains exactly one such record. -/
theorem countId_eq_one {w : List FileLine} {i : String}
    (hpw : w.Pairwise (fun a b => lineId a ≠ lineId b))
    (hmem : i ∈ storedIds w) : countId w i = 1 := by
  induction w with
  | nil => simp [storedIds] at hmem
  | cons l rest ih =>
    cases l with
    | malformed =>
      have hm' : i ∈ storedIds rest := by
        simpa [storedIds, List.filterMap_cons] using hmem
      have hrec := ih (List.Pairwise.of_cons hpw) hm'
      have hstep : countId (FileLine.malformed :: rest) i = countId rest i := by
        simp [countId, List.filter_cons]
      rw [hstep, hrec]
    | record j p =>
      by_cases hj : j = i
      · subst hj
        have hz : countId rest j = 0 := countId_eq_zero (fun q hq => by
          have h2 := (List.pairwise_cons.mp hpw).1 _ hq
          simp [lineId] at h2)
        have hstep : countId (FileLine.record j p :: rest) j = countId rest j + 1 := by
          simp [countId, List.filter_cons]
        rw [hstep, hz]
      · have hmem' : i ∈ storedIds rest := by
          have h1 : i ∈ j :: storedIds rest := by
            simpa [storedIds, List.filterMap_cons] using hmem
          rcases List.mem_cons.mp h1 with heq | h2
          · exact absurd heq.symm hj
          · exact h2
        have hrec := ih (List.Pairwise.of_cons hpw) hmem'
        have hstep : countId (FileLine.record j p :: rest) i = countId rest i := by
          simp [countId, List.filter_cons, hj]
        rw [hstep, hrec]

/-- C1 counterexample: dedup fails for an id with leading whitespace.
The archive already stores a record with id `" x"` (so the id is present
in the pre-existing file), yet re-running `append_entries` with the same
entry writes it again — the loaded id set holds the *stripped* id `"x"`,
which the raw id `" x"` does not match — leaving two stored records for
that id instead of exactly one. -/
theorem append_entries_rerun_duplicates :
    append_entries [] [{ id := " x", payload := "p" }] =
      ([FileLine.record " x" "p"], 1) ∧
    " x" ∈ storedIds [FileLine.record " x" "p"] ∧
    append_entries [FileLine.record " x" "p"] [{ id := " x", payload := "p" }] =
      ([FileLine.record " x" "p", FileLine.record " x" "p"], 1) ∧
    countId [FileLine.record " x" "p", FileLine.record " x" "p"] " x" = 2 := by
  decide

/-- C1 as amended: for batches whose entry ids carry no leading or
trailing whitespace (as every pipeline-generated `make_id` hex id does),
`append_entries` appends exactly the entries whose id is non-empty and
not already in the loaded id set (duplicates within the batch are also
rejected: written ids are pairwise distinct), never modifies or removes
pre-existing lines, returns exactly the number of records written,
leaves every non-empty batch id present afterwards, is idempotent
(re-running with the same batch appends nothing), and stores exactly one
record for each fresh id. -/
theorem append_entries_dedup (f : List FileLine) (es : List Entry)
    (h : ∀ e ∈ es, pyStrip e.id = e.id) :
    (append_entries f es).1 = f ++ (appendGo (load_existing_ids f) es).1 ∧
    (append_entries f es).1.length = f.length + (append_entries f es).2 ∧
    (∀ l ∈ (appendGo (load_existing_ids f) es).1,
      ∃ e, e ∈ es ∧ l = FileLine.record e.id e.payload ∧
        e.id ≠ "" ∧ e.id ∉ load_existing_ids f) ∧
    (appendGo (load_existing_ids f) es).1.Pairwise (fun a b => lineId a ≠ lineId b) ∧
    (∀ e ∈ es, e.id ≠ "" → e.id ∈ load_existing_ids (append_entries f es).1) ∧
    append_entries (append_entries f es).1 es = ((append_entries f es).1, 0) ∧
    (∀ e ∈ es, e.id ≠ "" → e.id ∉ load_existing_ids f →
      countId (append_entries f es).1 e.id = 1) := by
  have hcomplete : ∀ e ∈ es, e.id ≠ "" →
      e.id ∈ load_existing_ids (append_entries f es).1 := by
    intro e he hne
    rcases appendGo_complete es (load_existing_ids f) e he hne with hw | hseen
    · have : e.id ∈ load_existing_ids (appendGo (load_existing_ids f) es).1 :=
        mem_load_of_stored (h e he) hne hw
      rw [show (append_entries f es).1 =
        f ++ (appendGo (load_existing_ids f) es).1 from rfl, load_existing_ids_append]
      exact List.mem_append_right _ this
    · rw [show (append_entries f es).1 =
        f ++ (appendGo (load_existing_ids f) es).1 from rfl, load_existing_ids_append]
      exact List.mem_append_left _ hseen
  refine ⟨rfl, ?_, appendGo_sound es (load_existing_ids f), (appendGo_ids es _).2,
    hcomplete, ?_, ?_⟩
  · show (f ++ (appendGo (load_existing_ids f) es).1).length = _
    rw [List.length_append, appendGo_len]
    rfl
  · have hall : ∀ e ∈ es, e.id = "" ∨
        e.id ∈ load_existing_ids (append_entries f es).1 := by
      intro e he
      by_cases hne : e.id = ""
      · exact Or.inl hne
      · exact Or.inr (hcomplete e he hne)
    show (_ ++ (appendGo (load_existing_ids (append_entries f es).1) es).1, _) = _
    rw [appendGo_all_seen es _ hall]
    simp
  · intro e he hne hnotin
    rw [show (append_entries f es).1 =
      f ++ (appendGo (load_existing_ids f) es).1 from rfl, countId_append]
    have hzero : countId f e.id = 0 := by
      apply countId_eq_zero
      intro p hp
      apply hnotin
      apply mem_load_of_stored (h e he) hne
      simp only [storedIds, List.mem_filterMap]
      exact ⟨FileLine.record e.id p, hp, rfl⟩
    have hone : countId (appendGo (load_existing_ids f) es).1 e.id = 1 := by
      apply countId_eq_one (appendGo_ids es _).2
      rcases appendGo_complete es (load_existing_ids f) e he hne with hw | hseen
      · exact hw
      · exact absurd hseen hnotin
    rw [hzero, hone]

/-- Witness for `append_entries_dedup`: appending the same fresh entry
twice in one batch to an empty archive stores it once, and re-running
the append leaves the archive unchanged. -/
theorem append_entries_dedup_witness :
    append_entries (append_entries []
        [{ id := "aa", payload := "p" }, { id := "aa", payload := "p" }]).1
      [{ id := "aa", payload := "p" }, { id := "aa", payload := "p" }] =
      ((append_entries []
        [{ id := "aa", payload := "p" }, { id := "aa", payload := "p" }]).1, 0) ∧
    countId (append_entries []
      [{ id := "aa", payload := "p" }, { id := "aa", payload := "p" }]).1 "aa" = 1 :=
  ⟨(append_entries_dedup [] [{ id := "aa", payload := "p" }, { id := "aa", payload := "p" }]
      (by decide)).2.2.2.2.2.1,
   (append_entries_dedup [] [{ id := "aa", payload := "p" }, { id := "aa", payload := "p" }]
      (by decide)).2.2.2.2.2.2 { id := "aa", payload := "p" } (by decide) (by decide)
      (by decide)⟩

/-- `Char.toNat` is injective. -/
theorem char_toNat_inj {c d : Char} (h : c.toNat = d.toNat) : c = d :=
  Char.ext (UInt32.ext h)

/-- `Char.ofNat` inverts `toNat` on valid code points. -/
theorem toNat_ofNat_valid {n : Nat} (h : n.isValidChar) : (Char.ofNat n).toNat = n := by
  unfold Char.ofNat
  rw [dif_pos h]
  rfl

/-- Members of a dropped-prefix list are members of the original. -/
theorem mem_dropWhile {p : Char → Bool} {l : List Char} {c : Char}
    (h : c ∈ l.dropWhile p) : c ∈ l :=
  (List.dropWhile_sublist p).subset h

/-- Characters of `pyStrip s` come from `s`. -/
theorem mem_pyStrip {s : String} {c : Char} (h : c ∈ (pyStrip s).toList) : c ∈ s.toList := by
  have h1 : c ∈ ((s.toList.dropWhile isPySpace).reverse.dropWhile isPySpace).reverse := h
  rw [List.mem_reverse] at h1
  have h2 := mem_dropWhile h1
  rw [List.mem_reverse] at h2
  exact mem_dropWhile h2

/-- Characters of `stripCharsBoth cs s` come from `s`. -/
theorem mem_stripCharsBoth {cs : List Char} {s : String} {c : Char}
    (h : c ∈ (stripCharsBoth cs s).toList) : c ∈ s.toList := by
  have h1 : c ∈ ((s.toList.dropWhile (cs.contains ·)).reverse.dropWhile
      (cs.contains ·)).reverse := h
  rw [List.mem_reverse] at h1
  have h2 := mem_dropWhile h1
  rw [List.mem_reverse] at h2
  exact mem_dropWhile h2

/-- A truncation scan returns a prefix of its input. -/
theorem truncScan_sublist (pred : Option Char → List Char → Bool) :
    ∀ (prev : Option Char) (l : List Char), (truncScan pred prev l).Sublist l := by
  intro prev l
  induction l generalizing prev with
  | nil => simp [truncScan]
  | cons c rest ih =>
    simp only [truncScan]
    split
    · simp
    · exact (ih (some c)).cons₂ c

/-- Characters of one truncation step come from the input. -/
theorem mem_truncPat {pred : Option Char → List Char → Bool} {s : String} {c : Char}
    (h : c ∈ (truncPat pred s).toList) : c ∈ s.toList :=
  (truncScan_sublist pred none s.toList).subset (mem_pyStrip h)

/-- Characters of the boilerplate-stripped string come from the input. -/
theorem mem_stripFeedNoise {s : String} {c : Char}
    (h : c ∈ (stripFeedNoise s).toList) : c ∈ s.toList :=
  mem_truncPat (mem_truncPat (mem_truncPat (mem_truncPat (mem_truncPat (mem_truncPat
    (mem_truncPat (mem_truncPat (mem_truncPat h))))))))

/-- A successful case-insensitive literal match returns a suffix. -/
theorem matchCI_sublist : ∀ (ps l r : List Char), matchCI ps l = some r → r.Sublist l := by
  intro ps
  induction ps with
  | nil =>
    intro l r h
    simp only [matchCI, Option.some.injEq] at h
    exact h ▸ List.Sublist.refl l
  | cons p ps ih =>
    intro l r h
    cases l with
    | nil => simp [matchCI] at h
    | cons c cs =>
      simp only [matchCI] at h
      split at h
      · exact (ih cs r h).cons c
      · simp at h

/-- Characters of the URL-stripped list come from the input. -/
theorem mem_removeUrlsAux : ∀ (fuel : Nat) (l : List Char) (c : Char),
    c ∈ removeUrlsAux fuel l → c ∈ l := by
  intro fuel
  induction fuel with
  | zero => intro l c h; exact h
  | succ fuel ih =>
    intro l c h
    cases l with
    | nil => exact h
    | cons c0 rest =>
      simp only [removeUrlsAux] at h
      split at h
      · split at h
        · exact mem_dropWhile (ih _ _ h)
        · rcases List.mem_cons.mp h with rfl | hm
          · exact List.mem_cons_self _ _
          · exact List.mem_cons_of_mem _ (ih _ _ hm)
      · rcases List.mem_cons.mp h with rfl | hm
        · exact List.mem_cons_self _ _
        · exact List.mem_cons_of_mem _ (ih _ _ hm)

/-- Characters of `removeUrls s` come from `s`. -/
theorem mem_removeUrls {s : String} {c : Char}
    (h : c ∈ (removeUrls s).toList) : c ∈ s.toList :=
  mem_removeUrlsAux _ _ _ h

/-- Characters of the `+N chars`-stripped list come from the input. -/
theorem mem_removePlusCharsAux : ∀ (fuel : Nat) (l : List Char) (c : Char),
    c ∈ removePlusCharsAux fuel l → c ∈ l := by
  intro fuel
  induction fuel with
  | zero => intro l c h; exact h
  | succ fuel ih =>
    intro l c h
    cases l with
    | nil => exact h
    | cons c0 rest =>
      simp only [removePlusCharsAux] at h
      split at h
      · next h0 =>
        subst h0
        split at h
        · rcases List.mem_cons.mp h with rfl | hm
          · exact List.mem_cons_self _ _
          · exact List.mem_cons_of_mem _ (ih _ _ hm)
        · split at h
          · next heq =>
            have hsub := matchCI_sublist _ _ _ heq
            have h2 : c ∈ (rest.drop (rest.takeWhile Char.isDigit).length).dropWhile isPySpace :=
              hsub.subset (ih _ _ h)
            exact List.mem_cons_of_mem _ (List.drop_subset _ _ (mem_dropWhile h2))
          · rcases List.mem_cons.mp h with rfl | hm
            · exact List.mem_cons_self _ _
            · exact List.mem_cons_of_mem _ (ih _ _ hm)
      · rcases List.mem_cons.mp h with rfl | hm
        · exact List.mem_cons_self _ _
        · exact List.mem_cons_of_mem _ (ih _ _ hm)

/-- A byte of the latin-1 encoding is the code of some input character. -/
theorem mem_encodeLatin1 {s : String} {b : Nat} (h : b ∈ encodeLatin1Ignore s) :
    ∃ c ∈ s.toList, c.toNat = b := by
  simp only [encodeLatin1Ignore, List.mem_filterMap] at h
  obtain ⟨c, hc, he⟩ := h
  refine ⟨c, hc, ?_⟩
  split at he
  · exact Option.some.inj he
  · simp at he

/-- A decoded character below `0x80` comes from a byte equal to its own
code: multi-byte sequences only produce code points at or above `0x80`. -/
theorem decodeAux_low : ∀ (fuel : Nat) (bs : List Nat) (c : Char),
    c ∈ decodeUtf8Aux fuel bs → c.toNat < 128 → c.toNat ∈ bs := by
  intro fuel
  induction fuel with
  | zero => intro bs c h; simp [decodeUtf8Aux] at h
  | succ fuel ih =>
    intro bs c h hlow
    cases bs with
    | nil => simp [decodeUtf8Aux] at h
    | cons b rest =>
      simp only [decodeUtf8Aux] at h
      by_cases h1 : b < 128
      · rw [if_pos h1] at h
        rcases List.mem_cons.mp h with heq | hm
        · have hb : (b : Nat).isValidChar := Or.inl (by omega)
          rw [heq, toNat_ofNat_valid hb]
          exact List.mem_cons_self _ _
        · exact List.mem_cons_of_mem _ (ih rest c hm hlow)
      · rw [if_neg h1] at h
        by_cases h2 : (194 ≤ b && b ≤ 223) = true
        · rw [if_pos h2] at h
          rw [Bool.and_eq_true, decide_eq_true_eq, decide_eq_true_eq] at h2
          cases rest with
          | nil => simp at h
          | cons b2 rest2 =>
            dsimp only at h
            by_cases h3 : isCont b2 = true
            · rw [if_pos h3] at h
              simp only [isCont, Bool.and_eq_true, decide_eq_true_eq] at h3
              rcases List.mem_cons.mp h with heq | hm
              · exfalso
                have hv : ((b - 192) * 64 + (b2 - 128)).isValidChar := Or.inl (by omega)
                rw [heq, toNat_ofNat_valid hv] at hlow
                omega
              · exact List.mem_cons_of_mem _ (List.mem_cons_of_mem _ (ih rest2 c hm hlow))
            · rw [if_neg h3] at h
              exact List.mem_cons_of_mem _ (ih (b2 :: rest2) c h hlow)
        · rw [if_neg h2] at h
          by_cases h4 : (224 ≤ b && b ≤ 239) = true
          · rw [if_pos h4] at h
            rw [Bool.and_eq_true, decide_eq_true_eq, decide_eq_true_eq] at h4
            match rest with
            | [] => simp at h
            | [b2] => simp at h
            | b2 :: b3 :: rest3 =>
              dsimp only at h
              by_cases h5 : ((if b = 224 then 160 ≤ b2 && b2 ≤ 191
                  else if b = 237 then 128 ≤ b2 && b2 ≤ 159
                  else isCont b2) && isCont b3) = true
              · rw [if_pos h5] at h
                rw [Bool.and_eq_true] at h5
                have hb3 : 128 ≤ b3 ∧ b3 ≤ 191 := by
                  have := h5.2
                  simp only [isCont, Bool.and_eq_true, decide_eq_true_eq] at this
                  exact this
                have hb2 : 128 ≤ b2 ∧ b2 ≤ 191 ∧ (b = 224 → 160 ≤ b2) ∧
                    (b = 237 → b2 ≤ 159) := by
                  have h52 := h5.1
                  by_cases hb224 : b = 224
                  · rw [if_pos hb224, Bool.and_eq_true, decide_eq_true_eq,
                      decide_eq_true_eq] at h52
                    exact ⟨by omega, h52.2, fun _ => h52.1, fun hc => by omega⟩
                  · rw [if_neg hb224] at h52
                    by_cases hb237 : b = 237
                    · rw [if_pos hb237, Bool.and_eq_true, decide_eq_true_eq,
                        decide_eq_true_eq] at h52
                      exact ⟨h52.1, by omega, fun hc => absurd hc hb224,
                        fun _ => h52.2⟩
                    · rw [if_neg hb237] at h52
                      simp only [isCont, Bool.and_eq_true, decide_eq_true_eq] at h52
                      exact ⟨h52.1, h52.2, fun hc => absurd hc hb224,
                        fun hc => absurd hc hb237⟩
                rcases List.mem_cons.mp h with heq | hm
                · exfalso
                  have hv : ((b - 224) * 4096 + (b2 - 128) * 64 + (b3 - 128)).isValidChar := by
                    by_cases hbig : 238 ≤ b
                    · right
                      constructor <;> omega
                    · left
                      by_cases hb237 : b = 237
                      · have := hb2.2.2.2 hb237
                        omega
                      · omega
                  rw [heq, toNat_ofNat_valid hv] at hlow
                  omega
                · exact List.mem_cons_of_mem _ (List.mem_cons_of_mem _
                    (List.mem_cons_of_mem _ (ih rest3 c hm hlow)))
              · rw [if_neg h5] at h
                exact List.mem_cons_of_mem _ (ih (b2 :: b3 :: rest3) c h hlow)
          · rw [if_neg h4] at h
            by_cases h6 : (240 ≤ b && b ≤ 244) = true
            · rw [if_pos h6] at h
              rw [Bool.and_eq_true, decide_eq_true_eq, decide_eq_true_eq] at h6
              match rest with
              | [] => simp at h
              | [b2] => simp at h
              | [b2, b3] => simp at h
              | b2 :: b3 :: b4 :: rest4 =>
                dsimp only at h
                by_cases h7 : ((if b = 240 then 144 ≤ b2 && b2 ≤ 191
                    else if b = 244 then 128 ≤ b2 && b2 ≤ 143
                    else isCont b2) && isCont b3 && isCont b4) = true
                · rw [if_pos h7] at h
                  rw [Bool.and_eq_true, Bool.and_eq_true] at h7
                  have hb3 : 128 ≤ b3 ∧ b3 ≤ 191 := by
                    have := h7.1.2
                    simp only [isCont, Bool.and_eq_true, decide_eq_true_eq] at this
                    exact this
                  have hb4 : 128 ≤ b4 ∧ b4 ≤ 191 := by
                    have := h7.2
                    simp only [isCont, Bool.and_eq_true, decide_eq_true_eq] at this
                    exact this
                  have hb2 : 128 ≤ b2 ∧ b2 ≤ 191 ∧ (b = 240 → 144 ≤ b2) ∧
                      (b = 244 → b2 ≤ 143) := by
                    have h72 := h7.1.1
                    by_cases hb240 : b = 240
                    · rw [if_pos hb240, Bool.and_eq_true, decide_eq_true_eq,
                        decide_eq_true_eq] at h72
                      exact ⟨by omega, h72.2, fun _ => h72.1, fun hc => by omega⟩
                    · rw [if_neg hb240] at h72
                      by_cases hb244 : b = 244
                      · rw [if_pos hb244, Bool.and_eq_true, decide_eq_true_eq,
                          decide_eq_true_eq] at h72
                        exact ⟨h72.1, by omega, fun hc => absurd hc hb240,
                          fun _ => h72.2⟩
                      · rw [if_neg hb244] at h72
                        simp only [isCont, Bool.and_eq_true, decide_eq_true_eq] at h72
                        exact ⟨h72.1, h72.2, fun hc => absurd hc hb240,
                          fun hc => absurd hc hb244⟩
                  rcases List.mem_cons.mp h with heq | hm
                  · exfalso
                    have hv : ((b - 240) * 262144 + (b2 - 128) * 4096 +
                        (b3 - 128) * 64 + (b4 - 128)).isValidChar := by
                      right
                      by_cases hb240 : b = 240
                      · have := hb2.2.2.1 hb240
                        constructor <;> omega
                      · by_cases hb244 : b = 244
                        · have := hb2.2.2.2 hb244
                          constructor <;> omega
                        · constructor <;> omega
                    rw [heq, toNat_ofNat_valid hv] at hlow
                    omega
                  · exact List.mem_cons_of_mem _ (List.mem_cons_of_mem _
                      (List.mem_cons_of_mem _ (List.mem_cons_of_mem _
                        (ih rest4 c hm hlow))))
                · rw [if_neg h7] at h
                  exact List.mem_cons_of_mem _ (ih (b2 :: b3 :: b4 :: rest4) c h hlow)
            · rw [if_neg h6] at h
              exact List.mem_cons_of_mem _ (ih rest c h hlow)

/-- A low (ASCII) character of the mojibake round trip was already in
the input string. -/
theorem mem_mojibake_low {s : String} {c : Char}
    (h : c ∈ (mojibakeRoundTrip s).toList) (hlow : c.toNat < 128) : c ∈ s.toList := by
  have h1 : c.toNat ∈ encodeLatin1Ignore s :=
    decodeAux_low _ _ _ h hlow
  obtain ⟨d, hd, hdn⟩ := mem_encodeLatin1 h1
  rwa [char_toNat_inj hdn] at hd

/-- Words produced by the whitespace splitter contain no whitespace. -/
theorem wordsAux_nonspace : ∀ (l acc : List Char), (∀ c ∈ acc, isPySpace c = false) →
    ∀ w ∈ wordsAux l acc, ∀ c ∈ w, isPySpace c = false := by
  intro l
  induction l with
  | nil =>
    intro acc hacc w hw c hc
    simp only [wordsAux] at hw
    split at hw
    · simp at hw
    · simp only [List.mem_singleton] at hw
      subst hw
      exact hacc c (List.mem_reverse.mp hc)
  | cons c0 rest ih =>
    intro acc hacc w hw c hc
    simp only [wordsAux] at hw
    split at hw
    · split at hw
      · exact ih [] (by simp) w hw c hc
      · rcases List.mem_cons.mp hw with rfl | hm
        · exact hacc c (List.mem_reverse.mp hc)
        · exact ih [] (by simp) w hm c hc
    · next h0 =>
      refine ih (c0 :: acc) ?_ w hw c hc
      intro d hd
      rcases List.mem_cons.mp hd with rfl | hm
      · simpa using h0
      · exact hacc d hm

/-- A character of a separator-joined list comes from a piece or from
the separator. -/
theorem mem_joinSep {sep : String} {ls : List String} {c : Char}
    (h : c ∈ (joinSep sep ls).toList) : (∃ l ∈ ls, c ∈ l.toList) ∨ c ∈ sep.toList := by
  induction ls with
  | nil => simp [joinSep] at h
  | cons a rest ih =>
    cases rest with
    | nil => exact Or.inl ⟨a, List.mem_cons_self _ _, h⟩
    | cons b t =>
      have hsplit : (joinSep sep (a :: b :: t)).toList =
          a.toList ++ sep.toList ++ (joinSep sep (b :: t)).toList := rfl
      rw [hsplit] at h
      rcases List.mem_append.mp h with h1 | h2
      · rcases List.mem_append.mp h1 with ha | hs
        · exact Or.inl ⟨a, List.mem_cons_self _ _, ha⟩
        · exact Or.inr hs
      · rcases ih h2 with ⟨l, hl, hc⟩ | hs
        · exact Or.inl ⟨l, List.mem_cons_of_mem _ hl, hc⟩
        · exact Or.inr hs

/-- Every whitespace character remaining after collapse is a plain
space. -/
theorem collapseWs_space {s : String} {c : Char} (h : c ∈ (collapseWs s).toList)
    (hsp : isPySpace c = true) : c = ' ' := by
  rcases mem_joinSep h with ⟨l, hl, hc⟩ | hsep
  · obtain ⟨w, hw, rfl⟩ := List.mem_map.mp hl
    have := wordsAux_nonspace s.toList [] (by simp) w hw c hc
    rw [this] at hsp
    simp at hsp
  · simpa using hsep

/-- Every whitespace character of `cleanStage4` output is a plain
space. -/
theorem cleanStage4_space {s : String} {c : Char} (h : c ∈ (cleanStage4 s).toList)
    (hsp : isPySpace c = true) : c = ' ' :=
  collapseWs_space (mem_removeUrls (mem_removePlusCharsAux _ _ _ h)) hsp

/-- Every low whitespace character of `cleanStage5` output is a plain
space (the mojibake round trip can only introduce whitespace at or above
`0x80`). -/
theorem cleanStage5_space {s : String} {c : Char} (h : c ∈ (cleanStage5 s).toList)
    (hsp : isPySpace c = true) (hlow : c.toNat < 128) : c = ' ' := by
  unfold cleanStage5 at h
  split at h
  · exact cleanStage4_space (mem_mojibake_low h hlow) hsp
  · exact cleanStage4_space h hsp

/-- Every low whitespace character of a cleaned string is a plain space;
in particular cleaned text contains no `\n`, `\r` or `\t`. -/
theorem clean_text_space {s : String} {c : Char} (h : c ∈ (clean_text s).toList)
    (hsp : isPySpace c = true) (hlow : c.toNat < 128) : c = ' ' := by
  unfold clean_text at h
  split at h
  · simp at h
  · exact cleanStage5_space (mem_stripFeedNoise (mem_stripCharsBoth h)) hsp hlow

/-- Cleaned text is newline-free. -/
theorem clean_text_nl {s : String} {c : Char} (h : c ∈ (clean_text s).toList) :
    c ≠ '\n' ∧ c ≠ '\r' := by
  constructor
  · rintro rfl
    have := clean_text_space h (by decide) (by decide)
    simp at this
  · rintro rfl
    have := clean_text_space h (by decide) (by decide)
    simp at this

/-- Rebuilding a string from its characters is the identity. -/
theorem asString_toList (s : String) : s.toList.asString = s := rfl

/-- A string is empty exactly when its character list is. -/
theorem eq_empty_iff_toList {s : String} : s = "" ↔ s.toList = [] := by
  constructor
  · rintro rfl; rfl
  · intro h
    have := congrArg List.asString h
    rwa [asString_toList] at this

/-- The line splitter consumes a terminator-free chunk into the
accumulator. -/
theorem pySplitlinesAux_chunk : ∀ (l : List Char), (∀ c ∈ l, c ≠ '\n' ∧ c ≠ '\r') →
    ∀ (tail acc : List Char),
      pySplitlinesAux (l ++ tail) acc = pySplitlinesAux tail (l.reverse ++ acc) := by
  intro l
  induction l with
  | nil => intro _ tail acc; simp
  | cons c0 rest ih =>
    intro h tail acc
    have hc0 := h c0 (List.mem_cons_self _ _)
    have hstep : pySplitlinesAux (c0 :: (rest ++ tail)) acc =
        pySplitlinesAux (rest ++ tail) (c0 :: acc) := by
      rw [pySplitlinesAux.eq_def]
      split
      · next heq => simp at heq
      · next heq =>
        injection heq with h1 _
        exact absurd h1 hc0.2
      · next heq =>
        injection heq with h1 _
        exact absurd h1 hc0.2
      · next heq =>
        injection heq with h1 _
        exact absurd h1 hc0.1
      · next heq =>
        injection heq with h1 h2
        rw [h1, h2]
    rw [List.cons_append, hstep, ih (fun d hd => h d (List.mem_cons_of_mem _ hd)) tail]
    simp

/-- Joining nonempty terminator-free lines with `\n` and splitting again
is the identity. -/
theorem pySplitlines_joinSep (ls : List String)
    (h : ∀ l ∈ ls, l ≠ "" ∧ ∀ c ∈ l.toList, c ≠ '\n' ∧ c ≠ '\r') :
    pySplitlines (joinSep "\n" ls) = ls := by
  induction ls with
  | nil => rfl
  | cons a rest ih =>
    obtain ⟨hane, hanl⟩ := h a (List.mem_cons_self _ _)
    cases rest with
    | nil =>
      show pySplitlinesAux a.toList [] = [a]
      have := pySplitlinesAux_chunk a.toList hanl [] []
      rw [List.append_nil] at this
      rw [this]
      simp only [pySplitlinesAux]
      rw [if_neg]
      · rw [List.append_nil, List.reverse_reverse, asString_toList]
      · simp only [List.append_nil, List.isEmpty_eq_true, List.reverse_eq_nil_iff]
        exact fun hx => hane (eq_empty_iff_toList.mpr hx)
    | cons b t =>
      have hjoin : (joinSep "\n" (a :: b :: t)).toList =
          a.toList ++ '\n' :: (joinSep "\n" (b :: t)).toList := by
        have h1 : (joinSep "\n" (a :: b :: t)).toList =
            (a.toList ++ ['\n']) ++ (joinSep "\n" (b :: t)).toList := rfl
        rw [h1, List.append_assoc]
        rfl
      show pySplitlinesAux (joinSep "\n" (a :: b :: t)).toList [] = a :: b :: t
      rw [hjoin, pySplitlinesAux_chunk a.toList hanl _ []]
      have hnl : pySplitlinesAux ('\n' :: (joinSep "\n" (b :: t)).toList)
          (a.toList.reverse ++ []) =
          (a.toList.reverse ++ []).reverse.asString ::
            pySplitlinesAux (joinSep "\n" (b :: t)).toList [] := rfl
      rw [hnl]
      rw [List.append_nil, List.reverse_reverse, asString_toList]
      have := ih (fun l hl => h l (List.mem_cons_of_mem _ hl))
      rw [show pySplitlines (joinSep "\n" (b :: t)) =
        pySplitlinesAux (joinSep "\n" (b :: t)).toList [] from rfl] at this
      rw [this]

/-- Right-trimming keeps a head that does not satisfy the predicate. -/
theorem rdrop_cons_of_neg {p : Char → Bool} {a : Char} (h : p a = false) (l : List Char) :
    ((a :: l).reverse.dropWhile p).reverse = a :: (l.reverse.dropWhile p).reverse := by
  rw [List.reverse_cons, List.dropWhile_append]
  by_cases he : (l.reverse.dropWhile p).isEmpty = true
  · rw [if_pos he]
    rw [List.isEmpty_eq_true] at he
    rw [he]
    simp [List.dropWhile_cons, h]
  · rw [if_neg he]
    rw [List.reverse_append]
    simp

/-- `pyStrip` keeps a bullet head: the stripped string is nonempty with
head `-`, and its characters come from the input. -/
theorem pyStrip_dash (t : String) :
    pyStrip ("- " ++ t) ≠ "" ∧ (pyStrip ("- " ++ t)).toList.head? = some '-' := by
  have hl : ("- " ++ t).toList = '-' :: (' ' :: t.toList) := rfl
  have hdash : isPySpace '-' = false := by decide
  have hdrop : ("- " ++ t).toList.dropWhile isPySpace = '-' :: (' ' :: t.toList) := by
    rw [hl, List.dropWhile_cons, hdash]
    simp
  have hlist : (pyStrip ("- " ++ t)).toList =
      '-' :: ((' ' :: t.toList).reverse.dropWhile isPySpace).reverse := by
    show ((("- " ++ t).toList.dropWhile isPySpace).reverse.dropWhile isPySpace).reverse = _
    rw [hdrop, rdrop_cons_of_neg hdash]
  constructor
  · intro hx
    rw [eq_empty_iff_toList] at hx
    rw [hlist] at hx
    simp at hx
  · rw [hlist]
    rfl

/-- The bullet shape the summarizers produce: a `"- "` marker followed
by terminator-free text. -/
def BulletShaped (b : String) : Prop :=
  ∃ t, b = "- " ++ t ∧ ∀ c ∈ t.toList, c ≠ '\n' ∧ c ≠ '\r'

/-- A bullet-shaped string is nonempty and terminator-free. -/
theorem bulletShaped_line {b : String} (hb : BulletShaped b) :
    b ≠ "" ∧ ∀ c ∈ b.toList, c ≠ '\n' ∧ c ≠ '\r' := by
  obtain ⟨t, rfl, hnl⟩ := hb
  constructor
  · intro hx
    rw [eq_empty_iff_toList] at hx
    simp [show ("- " ++ t).toList = '-' :: (' ' :: t.toList) from rfl] at hx
  · intro c hc
    rw [show ("- " ++ t).toList = '-' :: (' ' :: t.toList) from rfl] at hc
    rcases List.mem_cons.mp hc with rfl | hc2
    · exact ⟨by decide, by decide⟩
    · rcases List.mem_cons.mp hc2 with rfl | hc3
      · exact ⟨by decide, by decide⟩
      · exact hnl c hc3

/-- Joining bullet-shaped lines, enforcing the line limit and splitting
yields at most `L` lines, each beginning with the bullet dash. -/
theorem enforce_join_bullets (L : Nat) (bs : List String)
    (hb : ∀ b ∈ bs, BulletShaped b) :
    (∀ ln ∈ pySplitlines (enforce_line_limit (joinSep "\n" bs) L),
      ln.toList.head? = some '-') ∧
    (pySplitlines (enforce_line_limit (joinSep "\n" bs) L)).length ≤ L := by
  have hsplit1 : pySplitlines (joinSep "\n" bs) = bs :=
    pySplitlines_joinSep bs (fun b hbm => bulletShaped_line (hb b hbm))
  have hstripped : ∀ b ∈ bs, pyStrip b ≠ "" ∧ (pyStrip b).toList.head? = some '-' := by
    intro b hbm
    obtain ⟨t, rfl, _⟩ := hb b hbm
    exact pyStrip_dash t
  have hfilter : ((bs.map pyStrip).filter (· ≠ "")) = bs.map pyStrip := by
    rw [List.filter_eq_self]
    intro a ha
    obtain ⟨b, hbm, rfl⟩ := List.mem_map.mp ha
    simpa using (hstripped b hbm).1
  have henf : enforce_line_limit (joinSep "\n" bs) L =
      joinSep "\n" ((bs.map pyStrip).take L) := by
    unfold enforce_line_limit
    rw [hsplit1, hfilter]
  rw [henf]
  have htake : ∀ ln ∈ (bs.map pyStrip).take L,
      ln ≠ "" ∧ ∀ c ∈ ln.toList, c ≠ '\n' ∧ c ≠ '\r' := by
    intro ln hln
    have hmem := List.mem_of_mem_take hln
    obtain ⟨b, hbm, rfl⟩ := List.mem_map.mp hmem
    refine ⟨(hstripped b hbm).1, fun c hc => ?_⟩
    exact (bulletShaped_line (hb b hbm)).2 c (mem_pyStrip hc)
  have hsplit2 : pySplitlines (joinSep "\n" ((bs.map pyStrip).take L)) =
      (bs.map pyStrip).take L :=
    pySplitlines_joinSep _ htake
  rw [hsplit2]
  constructor
  · intro ln hln
    obtain ⟨b, hbm, rfl⟩ := List.mem_map.mp (List.mem_of_mem_take hln)
    exact (hstripped b hbm).2
  · rw [List.length_take]
    exact min_le_left _ _

/-- Characters of `addPunct t` come from `t` or are a period. -/
theorem mem_addPunct {t : String} {c : Char} (h : c ∈ (addPunct t).toList) :
    c ∈ t.toList ∨ c = '.' := by
  unfold addPunct at h
  split at h
  · split at h
    · exact Or.inl h
    · rcases List.mem_append.mp h with h1 | h2
      · exact Or.inl h1
      · simpa using Or.inr (by simpa using h2)
  · rcases List.mem_append.mp h with h1 | h2
    · exact Or.inl h1
    · simpa using Or.inr (by simpa using h2)

/-- Punctuated cleaned sentences are terminator-free. -/
theorem addPunct_clean_nl {s : String} {c : Char}
    (h : c ∈ (addPunct (clean_text s)).toList) : c ≠ '\n' ∧ c ≠ '\r' := by
  rcases mem_addPunct h with h1 | rfl
  · exact clean_text_nl h1
  · exact ⟨by decide, by decide⟩

/-- Every `local_summary` bullet is bullet-shaped. -/
theorem localBullets_shape (L : Nat) : ∀ (ss : List String) (n : Nat),
    ∀ b ∈ localBullets L ss n, BulletShaped b := by
  intro ss
  induction ss with
  | nil => intro n b hb; simp [localBullets] at hb
  | cons s rest ih =>
    intro n b hb
    simp only [localBullets] at hb
    split at hb
    · simp at hb
    · split at hb
      · exact ih n b hb
      · rcases List.mem_cons.mp hb with rfl | hm
        · exact ⟨addPunct (clean_text s), rfl, fun c hc => addPunct_clean_nl hc⟩
        · exact ih (n + 1) b hm

/-- Every `bulletize_lines` output is bullet-shaped. -/
theorem bulletize_lines_shape (lines : List String) :
    ∀ b ∈ bulletize_lines lines, BulletShaped b := by
  intro b hb
  simp only [bulletize_lines, List.mem_filterMap] at hb
  obtain ⟨ln, _, hln⟩ := hb
  split at hln
  · simp at hln
  · rw [← Option.some.inj hln]
    exact ⟨clean_text ln, rfl, fun c hc => clean_text_nl hc⟩

/-- C5 counterexample: two bullet-summary outputs whose single line does
not begin with the marker `"- "`.  `local_summary` on fully-empty input
returns the fixed placeholder sentence, and `normalize_bullet_output`
on a mojibake line that cleans to the ideographic space `U+3000` returns
the bare dash `"-"` (the synthesized wide space is stripped away after
the bullet prefix was attached). -/
theorem bullet_marker_counterexample :
    local_summary 15 "" "" "" = "요약할 본문이 부족합니다." ∧
    ¬ ("요약할 본문이 부족합니다.".startsWith "- ") ∧
    normalize_bullet_output 15 "Â- ã\u0080\u0080 -" = "-" ∧
    ¬ (("-" : String).startsWith "- ") := by
  refine ⟨by decide, by decide, by decide, by decide⟩

/-- C5 as amended: every non-empty line of a bullet-summary output
begins with the bullet dash `-` (for `local_summary` this holds whenever
the merged cleaned input is non-empty; on fully-empty input it returns
the fixed placeholder `요약할 본문이 부족합니다.` instead), and the
number of output lines never exceeds the configured maximum `L` (for the
placeholder, provided `L ≥ 1`).  The bare-dash weakening is forced by
the counterexample: an adversarial mojibake line can clean to a string
of exotic whitespace, which the final per-line strip removes, leaving
`"-"` rather than `"- "`. -/
theorem bullet_output_shape (L : Nat) (text title description content : String) :
    (∀ ln ∈ pySplitlines (normalize_bullet_output L text),
      ln.toList.head? = some '-') ∧
    (pySplitlines (normalize_bullet_output L text)).length ≤ L ∧
    (joinNonempty [clean_text title, clean_text description, clean_text content] ≠ "" →
      ∀ ln ∈ pySplitlines (local_summary L title description content),
        ln.toList.head? = some '-') ∧
    (1 ≤ L → (pySplitlines (local_summary L title description content)).length ≤ L) := by
  have hnorm : (∀ ln ∈ pySplitlines (normalize_bullet_output L text),
      ln.toList.head? = some '-') ∧
      (pySplitlines (normalize_bullet_output L text)).length ≤ L := by
    unfold normalize_bullet_output
    dsimp only
    split
    · simp [pySplitlines, pySplitlinesAux]
    · split
      · exact enforce_join_bullets L _ (bulletize_lines_shape _)
      · refine enforce_join_bullets L _ ?_
        intro b hb
        simp only [List.mem_filterMap] at hb
        obtain ⟨ln, _, hln⟩ := hb
        split at hln
        · simp at hln
        · rw [← Option.some.inj hln]
          refine ⟨addPunct (clean_text (pyStrip (lstripChars ['-', ' '] ln))), rfl, ?_⟩
          intro c hc
          exact addPunct_clean_nl hc
  refine ⟨hnorm.1, hnorm.2, ?_, ?_⟩
  · intro hmerged ln hln
    rw [local_summary, if_neg hmerged] at hln
    exact (enforce_join_bullets L _ (localBullets_shape L _ 0)).1 ln hln
  · intro hL
    by_cases hmerged : joinNonempty [clean_text title, clean_text description,
        clean_text content] = ""
    · rw [local_summary, if_pos hmerged]
      calc (pySplitlines "요약할 본문이 부족합니다.").length = 1 := by decide
        _ ≤ L := hL
    · rw [local_summary, if_neg hmerged]
      exact (enforce_join_bullets L _ (localBullets_shape L _ 0)).2

/-- Witness for `bullet_output_shape` at concrete inputs. -/
theorem bullet_output_shape_witness :
    (∀ ln ∈ pySplitlines (local_summary 15 "새 칩셋 발표"
        "회사가 새로운 반도체를 공개했다." ""), ln.toList.head? = some '-') ∧
    (pySplitlines (local_summary 15 "" "" "")).length ≤ 15 :=
  ⟨(bullet_output_shape 15 "" "새 칩셋 발표" "회사가 새로운 반도체를 공개했다." "").2.2.1
    (by decide),
   (bullet_output_shape 15 "" "" "" "").2.2.2 (by decide)⟩
